import Mathlib

/-!
Verification of the record-editing UI tools of this repository
(`src/tools/ui.ts` and the records-table variant of the same file).

Strings are modelled as lists of Unicode code points (`Str := List Nat`);
`strToL` converts a Lean string literal to that form.  JavaScript string
operations used by the source (trim, split, regex matches of the concrete
patterns appearing in the code, `String.prototype.replace` with a global
flag, `toLowerCase`/`toUpperCase` on the ASCII range) are defined
explicitly below.  `Date.parse` and `new Date(...).toISOString()` are
host-dependent, so they enter as explicit oracle parameters (`DateParse`,
`DateNorm`); every theorem quantifies over them or avoids them.

Records are association lists in insertion order; `jsKeys` reproduces the
JavaScript own-property ordering (array-index keys first, ascending, then
string keys in insertion order), which `Object.keys` and `JSON.stringify`
use.
-/

/-! ## Characters and strings -/

abbrev Str := List Nat

def strToL (s : String) : Str := s.data.map Char.toNat

/-- JavaScript `toLowerCase` on the ASCII range. -/
def lc (n : Nat) : Nat := if 65 ≤ n ∧ n ≤ 90 then n + 32 else n

/-- JavaScript `toUpperCase` on the ASCII range. -/
def uc (n : Nat) : Nat := if 97 ≤ n ∧ n ≤ 122 then n - 32 else n

def lowerStr (s : Str) : Str := s.map lc

/-- White space for JavaScript `trim` and the `\s` character class. -/
def isWsC (c : Nat) : Bool :=
  c == 32 || c == 9 || c == 10 || c == 13 || c == 11 || c == 12 || c == 160 || c == 65279

def isDigitC (c : Nat) : Bool := 48 ≤ c && c ≤ 57

/-- JavaScript `String.prototype.trim`. -/
def jsTrim (s : Str) : Str := ((s.dropWhile isWsC).reverse.dropWhile isWsC).reverse

/-- Character comparison, case-insensitive when `ci` is true (regex `i` flag). -/
def chEq (ci : Bool) (a b : Nat) : Bool := if ci then lc a == lc b else a == b

/-- `p` matches at the start of `l` (case-insensitively when `ci`). -/
def strPre (ci : Bool) : Str → Str → Bool
  | [], _ => true
  | _ :: _, [] => false
  | a :: p, b :: l => chEq ci a b && strPre ci p l

/-- `p` occurs somewhere inside `l` (JavaScript `includes` / regex search). -/
def hasOccB (ci : Bool) (p : Str) : Str → Bool
  | [] => strPre ci p []
  | c :: t => strPre ci p (c :: t) || hasOccB ci p t

def hasSubstr (p l : Str) : Bool := hasOccB false p l

/-- One step list of `String.prototype.replace` with a global flag: scan
left to right, replace every non-overlapping match of the literal pattern
`p` by `r`, never rescanning the replacement.  Structural recursion on a
fuel argument so that the kernel can evaluate it; the fuel is the length
of the scanned list, which suffices. -/
def replaceAllF (ci : Bool) (p r : Str) : Nat → Str → Str
  | _, [] => []
  | 0, _ => []
  | fuel + 1, c :: t =>
    if 0 < p.length ∧ strPre ci p (c :: t) then
      r ++ replaceAllF ci p r fuel (t.drop (p.length - 1))
    else
      c :: replaceAllF ci p r fuel t

def replaceAll (ci : Bool) (p r s : Str) : Str := replaceAllF ci p r s.length s

/-! ## The renderer's `esc` helper (`ui.ts` lines 87-91)

The source text is `s.replace(/&/g, '&').replace(/</g, '<').replace(/"/g, '"')`:
each global replacement substitutes the matched character for itself. -/

def esc (s : Str) : Str :=
  replaceAll false [34] [34] (replaceAll false [60] [60] (replaceAll false [38] [38] s))

/-- The "safely inject original data" step (`ui.ts` lines 150-152): the
serialized record with every `</script>` (case-insensitive) rewritten to
`<\/script>` and every `<!--` rewritten to `<\!--`. -/
def sanitize (s : Str) : Str :=
  replaceAll false (strToL "<!--") (strToL "<\\!--")
    (replaceAll true (strToL "</script>") (strToL "<\\/script>") s)

/-! ## Association lists with JavaScript `Map` / object-assignment semantics -/

def hasKey (m : List (Str × Str)) (k : Str) : Bool := m.any (fun p => p.1 == k)

/-- `Map.prototype.set` / `obj[k] = v`: update in place, else append. -/
def mapSet (m : List (Str × Str)) (k v : Str) : List (Str × Str) :=
  if hasKey m k then m.map (fun p => if p.1 == k then (k, v) else p) else m ++ [(k, v)]

def alookup (m : List (Str × Str)) (k : Str) : Option Str :=
  (m.find? (fun p => p.1 == k)).map (·.2)

abbrev Record := List (Str × Str)

/-- A canonical array-index string (JavaScript own-property ordering). -/
def natVal (s : Str) : Nat := s.foldl (fun a c => a * 10 + (c - 48)) 0

def isIntKey (s : Str) : Bool :=
  !s.isEmpty && s.all isDigitC && (s == [48] || s.head? != some 48) && natVal s < 4294967295

def insertNatKey (x : Str) : List Str → List Str
  | [] => [x]
  | y :: t => if natVal x ≤ natVal y then x :: y :: t else y :: insertNatKey x t

def sortNatKeys (l : List Str) : List Str := l.foldr insertNatKey []

/-- `Object.keys`: array-index keys first in ascending numeric order, then
the remaining keys in insertion order. -/
def jsKeys (rec : Record) : List Str :=
  let ks := rec.map (·.1)
  sortNatKeys (ks.filter isIntKey) ++ ks.filter (fun k => !isIntKey k)

/-! ## Text record parser (`parseObjectText`, `ui.ts` lines 24-56) -/

/-- `raw.split(/\r?\n/)`. -/
def splitLines : Str → List Str
  | [] => [[]]
  | 13 :: 10 :: t => [] :: splitLines t
  | 10 :: t => [] :: splitLines t
  | c :: t =>
    match splitLines t with
    | p :: ps => (c :: p) :: ps
    | [] => [[c]]

/-- Trimmed non-empty lines of the trimmed input. -/
def procLines (raw : Str) : List Str :=
  (((splitLines (jsTrim raw)).map jsTrim).filter (fun l => !l.isEmpty))

/-- `lines.find(l => !l.startsWith("*"))`. -/
def findNameLine (raw : Str) : Option Str :=
  (procLines raw).find? (fun l => l.head? != some 42)

/-- Split a list at the first occurrence of `c`. -/
def splitFirst (c : Nat) : Str → Option (Str × Str)
  | [] => none
  | x :: t =>
    if x == c then some ([], t)
    else (splitFirst c t).map (fun p => (x :: p.1, p.2))

/-- The bullet-line pattern `^\*\s*([^:]+):\s*(.+)$` of the parser, with both
captured groups already trimmed (`m[1].trim()`, `m[2].trim()`).  The regex
matches exactly when the line starts with `*` and a colon follows at least
one character (`[^:]+` can absorb the leading whitespace by backtracking)
and at least one character follows the colon; the trimmed groups equal the
trimmed segments before and after the first colon. -/
def matchBullet (line : Str) : Option (Str × Str) :=
  match line with
  | 42 :: rest =>
    match splitFirst 58 rest with
    | some (pre, post) =>
      if !pre.isEmpty && !post.isEmpty then some (jsTrim pre, jsTrim post) else none
    | none => none
  | _ => none

/-- The `label: value` pairs of the bullet lines, in input order. -/
def bulletPairs (raw : Str) : List (Str × Str) :=
  (procLines raw).filterMap matchBullet

/-- `fieldMap` (lower → last raw label) and `valueMap` (lower → last value). -/
def buildMaps (ps : List (Str × Str)) : List (Str × Str) × List (Str × Str) :=
  ps.foldl
    (fun m p => (mapSet m.1 (lowerStr p.1) p.1, mapSet m.2 (lowerStr p.1) p.2))
    ([], [])

/-- `/[\s_]+/`, the label-word separator. -/
def isSepC (c : Nat) : Bool := isWsC c || c == 95

/-- `label.split(/[\s_]+/)`: runs of separators split; a leading or trailing
run contributes an empty piece. -/
def splitSeps : Str → List Str
  | [] => [[]]
  | c :: t =>
    if isSepC c then
      match t with
      | x :: _ => if isSepC x then splitSeps t else [] :: splitSeps t
      | [] => [[], []]
    else
      match splitSeps t with
      | p :: ps => (c :: p) :: ps
      | [] => [[c]]

/-- `w => w[0].toUpperCase() + w.slice(1).toLowerCase()`: on the empty word,
`w[0]` is `undefined` and the call throws, modelled by `none`. -/
def titleCaseWord : Str → Option Str
  | [] => none
  | c :: t => some (uc c :: t.map lc)

/-- Title-Case normalization of a raw label (`ui.ts` lines 48-52). -/
def titleCase (k : Str) : Option Str :=
  ((splitSeps k).mapM titleCaseWord).map (List.intercalate [32])

inductive ParseResult where
  | errNoName : ParseResult
  | errMissing : List Str → ParseResult
  | crash : ParseResult
  | ok : Record → ParseResult
deriving DecidableEq, Repr

/-- The object-assembly loop (`ui.ts` lines 46-54): start from
`{ Name: nameLine }`, then for every `valueMap` entry in insertion order
compute the Title-Case label of the `fieldMap` raw label and assign.
`none` models the untyped `TypeError` thrown on an empty label word. -/
def buildObj (nameLine : Str) (fm vm : List (Str × Str)) : Option Record :=
  vm.foldlM
    (fun obj p =>
      (titleCase ((alookup fm p.1).getD [])).map (fun lab => mapSet obj lab p.2))
    [(strToL "Name", nameLine)]

def requiredFields : List Str := [strToL "Name", strToL "Id"]

/-- `parseObjectText` (`ui.ts` lines 24-56). -/
def parseObjectText (raw : Str) : ParseResult :=
  match findNameLine raw with
  | none => .errNoName
  | some nameLine =>
    let m := buildMaps (bulletPairs raw)
    let missing := requiredFields.filter (fun f => !hasKey m.1 (lowerStr f))
    if missing.isEmpty then
      match buildObj nameLine m.1 m.2 with
      | none => .crash
      | some rec => .ok rec
    else .errMissing missing

/-- The message of `Missing required fields: ...`. -/
def missingMsg (missing : List Str) : Str :=
  strToL "Missing required fields: " ++ List.intercalate (strToL ", ") missing

/-- The last bullet pair whose lowered label is `L`. -/
def lastBy (ps : List (Str × Str)) (L : Str) : Option (Str × Str) :=
  ps.reverse.find? (fun p => lowerStr p.1 == L)

/-- Some bullet line carries the (lowered) label `L`. -/
def hasFld (raw : Str) (L : Str) : Bool :=
  (bulletPairs raw).any (fun p => lowerStr p.1 == L)

/-- The bullet pairs whose labels equal `L` case-insensitively, in input order. -/
def grp (raw : Str) (L : Str) : List (Str × Str) :=
  (bulletPairs raw).filter (fun p => lowerStr p.1 == L)

/-! ## Strict ISO date check (`isIsoDate`, `ui.ts` lines 61-81) -/

/-- Oracle for `Date.parse`: the year of the parsed date, `none` for `NaN`. -/
def DateParse : Type := Str → Option Int

/-- Oracle for `new Date(v).toISOString().split("T")[0]`: `none` for an
invalid date. -/
def DateNorm : Type := Str → Option Str

/-- The oracle of a host whose `Date.parse` accepts nothing: all inputs that
matter below decide before the fallback, so theorems quantify over the
oracle and witnesses may use this one. -/
def dpNone : DateParse := fun _ => none

def dnNone : DateNorm := fun _ => none

/-- `/^\d{4}-\d{2}-\d{2}$/`. -/
def strictYMD (t : Str) : Bool :=
  match t with
  | [a, b, c, d, s1, e, f, s2, g, h] =>
    isDigitC a && isDigitC b && isDigitC c && isDigitC d && s1 == 45 &&
    isDigitC e && isDigitC f && s2 == 45 && isDigitC g && isDigitC h
  | _ => false

def ymdY : Str → Nat
  | a :: b :: c :: d :: _ => (((a - 48) * 10 + (b - 48)) * 10 + (c - 48)) * 10 + (d - 48)
  | _ => 0

def ymdM : Str → Nat
  | _ :: _ :: _ :: _ :: _ :: e :: f :: _ => (e - 48) * 10 + (f - 48)
  | _ => 0

def ymdD : Str → Nat
  | _ :: _ :: _ :: _ :: _ :: _ :: _ :: _ :: g :: h :: _ => (g - 48) * 10 + (h - 48)
  | _ => 0

/-- `isIsoDate` (`ui.ts` lines 61-81). -/
def isIsoDate (dp : DateParse) (value : Str) : Bool :=
  let t := jsTrim value
  if t.reverse.head? == some 37 then false
  else if t.head? == some 36 then false
  else if !t.isEmpty && t.all isDigitC then false
  else if t.contains 36 || t.contains 37 || t.contains 44 then false
  else if strictYMD t then
    1900 ≤ ymdY t && ymdY t ≤ 2100 && 1 ≤ ymdM t && ymdM t ≤ 12 && 1 ≤ ymdD t && ymdD t ≤ 31
  else
    match dp t with
    | none => false
    | some y => 1900 ≤ y && y ≤ 2100

/-! ## Field classification and the editable form (`objectCardHtml`,
`ui.ts` lines 99-145) -/

def isIdKey (key : Str) : Bool := lowerStr key == strToL "id"

def isDateKey (key : Str) : Bool := hasSubstr (strToL "date") (lowerStr key)

def isProbKey (key : Str) : Bool := hasSubstr (strToL "probability") (lowerStr key)

def isAmountKey (key : Str) : Bool :=
  hasSubstr (strToL "amount") (lowerStr key) || hasSubstr (strToL "revenue") (lowerStr key)

def forceTextKey (key : Str) : Bool := isProbKey key || isAmountKey key || isIdKey key

/-- The input's `type` attribute. -/
def fieldType (dp : DateParse) (key value : Str) : Str :=
  if !forceTextKey key && isDateKey key && isIsoDate dp value then strToL "date"
  else strToL "text"

/-- `/%\s*$/.test(value)`. -/
def endsPctWs (v : Str) : Bool := (v.reverse.dropWhile isWsC).head? == some 37

/-- `value.replace(/%\s*$/, "")`. -/
def stripPctWs (v : Str) : Str :=
  let r := v.reverse.dropWhile isWsC
  if r.head? == some 37 then r.tail.reverse else v

/-- The input's prefilled `value` attribute (`ui.ts` lines 110-131). -/
def fieldInputValue (dp : DateParse) (dn : DateNorm) (key value : Str) : Str :=
  let iv :=
    if !forceTextKey key && isDateKey key && isIsoDate dp value && !strictYMD value then
      match dn value with
      | some d => d
      | none => esc value
    else esc value
  if isProbKey key && endsPctWs value then esc (jsTrim (stripPctWs value)) else iv

/-- A field's per-row markup (`ui.ts` lines 136-143). -/
def fieldHtml (dp : DateParse) (dn : DateNorm) (key value : Str) : Str :=
  let id := (key.filter (fun c => !isWsC c)).map lc
  strToL "\n        <div class=\"field " ++
    (if isProbKey key then strToL "percent-field" else []) ++
    strToL "\">\n          <label for=\"" ++ id ++ strToL "\">" ++ esc key ++
    strToL "</label>\n          <div class=\"input-wrapper\">\n            <input type=\"" ++
    fieldType dp key value ++ strToL "\" id=\"" ++ id ++ strToL "\" value=\"" ++
    fieldInputValue dp dn key value ++ strToL "\" " ++
    (if isIdKey key then strToL "readonly style=\"background:#f3f4f6\"" else []) ++
    strToL ">\n            " ++
    (if isProbKey key then strToL "<span class=\"percent-symbol\">%</span>" else []) ++
    strToL "\n          </div>\n        </div>"

/-! ## The embedded form logic (`getFormData` and `buildPrompt`,
`ui.ts` lines 216-249) -/

/-- What `getFormData` reads back for a field whose input still holds the
prefilled value: the trimmed input value, with `%` re-appended for a
percent field when non-empty. -/
def getFormValue (dp : DateParse) (dn : DateNorm) (key value : Str) : Str :=
  let v := jsTrim (fieldInputValue dp dn key value)
  if isProbKey key then (if v.isEmpty then [] else v ++ [37]) else v

/-- `oldVal.split("T")[0]`. -/
def splitT (v : Str) : Str := v.takeWhile (fun c => c != 84)

/-- One iteration of `buildPrompt`'s loop for key `k`. -/
def changeEntry (original : Record) (current : Str → Option Str) (k : Str) : Option Str :=
  match alookup original k with
  | none => none
  | some oldV =>
    let newV := (current k).getD []
    if oldV = newV then none
    else
      let nOld := if isDateKey k then splitT oldV else oldV
      let nNew := if isDateKey k then splitT newV else newV
      if nOld = nNew then none
      else some (k ++ strToL " from \"" ++ nOld ++ strToL "\" to \"" ++ nNew ++ strToL "\"")

def changedList (original : Record) (current : Str → Option Str) : List Str :=
  (jsKeys original).filterMap (changeEntry original current)

/-- `buildPrompt` (`ui.ts` lines 233-249). -/
def buildPrompt (original : Record) (current : Str → Option Str) : Str :=
  let changed := changedList original current
  if changed.isEmpty then strToL "No changes detected."
  else
    strToL "Update " ++
      (if 1 < changed.length then strToL "these fields" else strToL "this field") ++
      strToL ": " ++ List.intercalate (strToL "; ") changed ++ strToL "."

/-- The current form data produced by submitting the rendered form with its
prefilled values unmodified. -/
def formCurrent (dp : DateParse) (dn : DateNorm) (rec : Record) : Str → Option Str :=
  fun k => (rec.find? (fun p => p.1 == k)).map (fun p => getFormValue dp dn p.1 p.2)

/-- Render a record, submit the form unmodified, and run the diff engine. -/
def roundTripPrompt (dp : DateParse) (dn : DateNorm) (rec : Record) : Str :=
  buildPrompt rec (formCurrent dp dn rec)

/-- The per-key no-change condition of the diff engine. -/
def diffKey (original : Record) (current : Str → Option Str) (k : Str) : Prop :=
  ∃ v, alookup original k = some v ∧
    (if isDateKey k then splitT v else v) ≠
      (if isDateKey k then splitT ((current k).getD []) else (current k).getD [])

/-- Field kinds of the specification, as the ordered predicate list of its
classification precedence (identifier, then percentage/currency, then date,
then plain); first match wins. -/
inductive FieldKind where
  | identifier : FieldKind
  | percentage : FieldKind
  | currency : FieldKind
  | date : FieldKind
  | plain : FieldKind
deriving DecidableEq, Repr

/-- Modelled from the spec's classification table (the source keeps the four
booleans inline); compared below against the rendered input type. -/
def specFieldKind (dp : DateParse) (key value : Str) : FieldKind :=
  if isIdKey key then .identifier
  else if isProbKey key then .percentage
  else if isAmountKey key then .currency
  else if isDateKey key && isIsoDate dp value then .date
  else .plain

/-! ## Records table (`recordsTableHtml`, table file lines 275-458) -/

def natToStr (n : Nat) : Str := strToL (Nat.repr n)

/-- JSON string escaping of one code point (`JSON.stringify`). -/
def jsonQuoteChar (c : Nat) : Str :=
  if c == 34 then [92, 34]
  else if c == 92 then [92, 92]
  else if c == 8 then strToL "\\b"
  else if c == 9 then strToL "\\t"
  else if c == 10 then strToL "\\n"
  else if c == 12 then strToL "\\f"
  else if c == 13 then strToL "\\r"
  else if c < 32 then
    strToL "\\u00" ++
      [if c / 16 < 10 then 48 + c / 16 else 87 + c / 16,
       if c % 16 < 10 then 48 + c % 16 else 87 + c % 16]
  else [c]

def jsonQuote (s : Str) : Str := [34] ++ (s.map jsonQuoteChar).flatten ++ [34]

/-- `JSON.stringify` of a record (own-property order). -/
def jsonStringify (rec : Record) : Str :=
  [123] ++
    List.intercalate [44]
      ((jsKeys rec).filterMap (fun k =>
        (alookup rec k).map (fun v => jsonQuote k ++ [58] ++ jsonQuote v))) ++
  [125]

/-- `JSON.stringify` of the records array. -/
def jsonStringifyList (recs : List Record) : Str :=
  [91] ++ List.intercalate [44] (recs.map jsonStringify) ++ [93]

/-- `val.endsWith("%")`. -/
def endsPct (v : Str) : Bool := v.reverse.head? == some 37

/-- The cell-formatting helper (table file lines 332-348), after its date
branch fell through. -/
def displayValueRest (field val : Str) : Str :=
  if isProbKey field && endsPct val then val else esc val

/-- The cell-formatting helper (table file lines 332-348). -/
def displayValue (dp : DateParse) (dn : DateNorm) (field val : Str) : Str :=
  if val.isEmpty then []
  else if isDateKey field && isIsoDate dp val then
    if strictYMD val then val
    else
      match dn val with
      | some d => d
      | none => displayValueRest field val
  else displayValueRest field val

def cellHtml (dp : DateParse) (dn : DateNorm) (record : Record) (field : Str) : Str :=
  strToL "<td class=\"cell\">" ++
    displayValue dp dn field ((alookup record field).getD []) ++ strToL "</td>"

def actionCell (index : Nat) : Str :=
  strToL "<td class=\"action-cell\"><button class=\"edit-btn\" onclick=\"event.stopPropagation(); editRecord(" ++
    natToStr index ++ strToL ")\" title=\"Edit Record\">Edit</button></td>"

/-- One `<tr>` of the table (table file lines 326-359). -/
def dataRecordAttr (record : Record) : Str :=
  strToL "data-record='" ++ sanitize (jsonStringify record) ++ strToL "'"

def rowHtml (dp : DateParse) (dn : DateNorm) (fields : List Str) (index : Nat)
    (record : Record) : Str :=
  strToL "<tr class=\"record-row\" onclick=\"editRecord(" ++ natToStr index ++
    strToL ")\" " ++ dataRecordAttr record ++ strToL ">" ++
    actionCell index ++ (fields.map (cellHtml dp dn record)).flatten ++ strToL "</tr>"

/-- `records.map((record, index) => ...)`. -/
def tableRows (dp : DateParse) (dn : DateNorm) (fields : List Str) :
    Nat → List Record → List Str
  | _, [] => []
  | i, r :: rs => rowHtml dp dn fields i r :: tableRows dp dn fields (i + 1) rs

/-- The union of all field names across the records, first-seen order. -/
def unionKeys (recs : List Record) : List Str :=
  recs.foldl (fun acc r => (jsKeys r).foldl (fun a k => if a.contains k then a else a ++ [k]) acc) []

/-- Code-point comparison standing in for `localeCompare` (a host/locale
detail; no claim depends on the relative order it induces). -/
def lexLe : Str → Str → Bool
  | [], _ => true
  | _ :: _, [] => false
  | a :: x, b :: y => if a < b then true else if b < a then false else lexLe x y

/-- The field comparator of the table (Name first, Id last, rest compared). -/
def fieldLe (a b : Str) : Bool :=
  if a == b then true
  else if a == strToL "Name" then true
  else if b == strToL "Name" then false
  else if a == strToL "Id" then false
  else if b == strToL "Id" then true
  else lexLe a b

def insertFld (x : Str) : List Str → List Str
  | [] => [x]
  | y :: t => if fieldLe x y then x :: y :: t else y :: insertFld x t

def sortFields (l : List Str) : List Str := l.foldr insertFld []

def tableHeaders (fields : List Str) : Str :=
  (strToL "<th class=\"header-cell\">Actions</th>" ::
    fields.map (fun f => strToL "<th class=\"header-cell\">" ++ esc f ++ strToL "</th>")).flatten

/-- The zero-record branch of `recordsTableHtml` (table file lines 282-310). -/
def recordsEmptyHtml (objectType : Str) : Str :=
  strToL "\n<!doctype html>\n<html>\n<head>\n  <meta charset=\"utf-8\"/>\n  <meta name=\"viewport\" content=\"width=device-width,initial-scale=1\"/>\n  <title>Records – " ++
  objectType ++
  strToL "</title>\n  <style>\n    body\x7bmargin:0;font-family:ui-sans-serif,system-ui,-apple-system,Segoe UI;background:#f9f9fb\x7d\n    .wrap\x7bmax-width:1024px;margin:0 auto;padding:16px\x7d\n    .card\x7bbackground:#fff;border-radius:16px;box-shadow:0 8px 24px rgba(0,0,0,.07);overflow:hidden\x7d\n    .header\x7bpadding:16px 20px;border-bottom:1px solid #eee\x7d\n    .header h1\x7bmargin:0;font-size:18px;font-weight:600;color:#111\x7d\n    .body\x7bpadding:20px;text-align:center;color:#6b7280\x7d\n  </style>\n</head>\n<body>\n  <div class=\"wrap\">\n    <div class=\"card\">\n      <div class=\"header\"><h1>" ++
  objectType ++
  strToL " Records</h1></div>\n      <div class=\"body\">\n        <p>No records found.</p>\n      </div>\n    </div>\n  </div>\n</body>\n</html>"

/-- The populated-table page (table file lines 312-457). -/
def recordsPageHtml (dp : DateParse) (dn : DateNorm) (records : List Record)
    (objectType : Str) : Str :=
  let fields := sortFields (unionKeys records)
  let rows := List.intercalate [10] (tableRows dp dn fields 0 records)
  let recordsJson := sanitize (jsonStringifyList records)
  strToL "\n<!doctype html>\n<html>\n<head>\n  <meta charset=\"utf-8\"/>\n  <meta name=\"viewport\" content=\"width=device-width,initial-scale=1\"/>\n  <title>Records – " ++
  objectType ++
  strToL "</title>\n  <style>\n    body\x7bmargin:0;font-family:ui-sans-serif,system-ui,-apple-system,Segoe UI;background:#f9f9fb\x7d\n    .wrap\x7bmax-width:1024px;margin:0 auto;padding:16px\x7d\n    .card\x7bbackground:#fff;border-radius:16px;box-shadow:0 8px 24px rgba(0,0,0,.07);overflow:hidden\x7d\n    .header\x7bpadding:16px 20px;border-bottom:1px solid #eee\x7d\n    .header h1\x7bmargin:0;font-size:18px;font-weight:600;color:#111\x7d\n    .body\x7bpadding:0\x7d\n    table\x7bwidth:100%;border-collapse:collapse\x7d\n    th,td\x7bpadding:12px 16px;text-align:left;border-bottom:1px solid #f3f4f6\x7d\n    th\x7bfont-weight:600;color:#374151;font-size:14px;background:#f9f9fb\x7d\n    .record-row\x7bcursor:pointer;transition:background-color 0.15s\x7d\n    .record-row:hover\x7bbackground:#f9f9fb\x7d\n    .record-row:first-child\x7bborder-bottom:1px solid #e5e7eb\x7d\n    .cell\x7bfont-size:14px;color:#111;max-width:200px;overflow:hidden;text-overflow:ellipsis;white-space:nowrap\x7d\n    .header-cell\x7bfont-size:12px;text-transform:uppercase;letter-spacing:0.05em\x7d\n    .action-cell\x7btext-align:center;width:80px\x7d\n    .edit-btn\x7bbackground:#111;color:#fff;border:0;border-radius:6px;padding:6px 12px;font-size:12px;font-weight:500;cursor:pointer;transition:background-color 0.15s\x7d\n    .edit-btn:hover\x7bbackground:#333\x7d\n    .edit-btn:active\x7bbackground:#000\x7d\n    .no-records\x7btext-align:center;padding:40px;color:#6b7280\x7d\n  </style>\n</head>\n<body>\n  <div class=\"wrap\">\n    <div class=\"card\">\n      <div class=\"header\"><h1>" ++
  objectType ++
  strToL " Records</h1></div>\n      <div class=\"body\">\n        <table>\n          <thead><tr>" ++
  tableHeaders fields ++
  strToL "</tr></thead>\n          <tbody>" ++
  rows ++
  strToL "</tbody>\n        </table>\n      </div>\n    </div>\n  </div>\n  <script>\n    // All records data from server\n    const allRecords = " ++
  recordsJson ++
  strToL ";\n\n    // Resize observer\n    const observer = new ResizeObserver(es => \x7b\n      for (const e of es) \x7b\n        parent.postMessage(\n          \x7b type: \"ui-size-change\", payload: \x7b height: e.contentRect.height + 16 \x7d \x7d,\n          \"*\"\n        );\n      \x7d\n    \x7d);\n    observer.observe(document.documentElement);\n\n    function editRecord(recordIndex) \x7b\n      const record = allRecords[recordIndex];\n      if (record) \x7b\n        // Build prompt to open record in edit mode\n        const prompt = \"Edit this \" + (record.Name || \"record\") + \" record in the UI form:\";\n\n        parent.postMessage(\x7b\n          type: \"prompt\",\n          payload: \x7b\n            prompt,\n            params: \x7b text: formatRecordForEdit(record) \x7d\n          \x7d\n        \x7d, \"*\");\n      \x7d\n    \x7d\n\n    function formatRecordForEdit(record) \x7b\n      let textContent = record.Name || \"Record\";\n\n      for (const [key, value] of Object.entries(record)) \x7b\n        if (key !== \"Name\") \x7b\n          textContent += \"\\n* \" + key + \": \" + value;\n        \x7d\n      \x7d\n\n      return textContent;\n    \x7d\n  </script>\n</body>\n</html>"

/-- `recordsTableHtml` (table file lines 275-458). -/
def recordsTableHtml (dp : DateParse) (dn : DateNorm) (records : List Record)
    (objectType : Str) : Str :=
  if records.isEmpty then recordsEmptyHtml objectType
  else recordsPageHtml dp dn records objectType

/-! ## Lemmas about the replacement scanner -/

theorem replaceAllF_self (c : Nat) :
    ∀ (fuel : Nat) (l : Str), l.length ≤ fuel → replaceAllF false [c] [c] fuel l = l := by
  intro fuel
  induction fuel with
  | zero =>
    intro l h
    cases l with
    | nil => rfl
    | cons a t => simp at h
  | succ n ih =>
    intro l h
    cases l with
    | nil => rfl
    | cons a t =>
      have ht : t.length ≤ n := by simpa using h
      by_cases hca : c = a
      · have hp : 0 < ([c] : Str).length ∧ strPre false [c] (a :: t) = true := by
          refine ⟨by simp, ?_⟩
          simp [strPre, chEq, hca]
        simp only [replaceAllF, if_pos hp]
        subst hca
        simpa using ih t ht
      · have hp : ¬ (0 < ([c] : Str).length ∧ strPre false [c] (a :: t) = true) := by
          rintro ⟨-, h2⟩
          simp [strPre, chEq] at h2
          exact hca h2
        simp only [replaceAllF, if_neg hp]
        rw [ih t ht]

theorem replaceAll_self (c : Nat) (s : Str) : replaceAll false [c] [c] s = s :=
  replaceAllF_self c s.length s le_rfl

/-- The renderer's `esc` replaces each special character by itself. -/
theorem esc_id (s : Str) : esc s = s := by
  simp [esc, replaceAll_self]

theorem hasOccB_drop (ci : Bool) (p : Str) :
    ∀ (n : Nat) (l : Str), hasOccB ci p l = false → hasOccB ci p (l.drop n) = false := by
  intro n
  induction n with
  | zero => intro l h; simpa using h
  | succ m ih =>
    intro l h
    cases l with
    | nil => simpa using h
    | cons c t =>
      have h2 : hasOccB ci p t = false := by
        have := h
        simp [hasOccB] at this
        exact this.2
      simpa using ih t h2

/-- If every character of `w` differs from the first character of the
replacement, a match of `w` at the start of the scanner's output pulls back
to a match of `w` at the start of the input. -/
theorem strPre_pullback (ci ci' : Bool) (p : Str) (r0 : Nat) (r' : Str) :
    ∀ (fuel : Nat) (w l : Str), (∀ a ∈ w, chEq ci' a r0 = false) →
      strPre ci' w (replaceAllF ci p (r0 :: r') fuel l) = true →
      strPre ci' w l = true := by
  intro fuel
  induction fuel with
  | zero =>
    intro w l hw h
    cases l with
    | nil =>
      cases w with
      | nil => rfl
      | cons a w' => simp [replaceAllF, strPre] at h
    | cons c t =>
      cases w with
      | nil => rfl
      | cons a w' => simp [replaceAllF, strPre] at h
  | succ n ih =>
    intro w l hw h
    cases l with
    | nil =>
      cases w with
      | nil => rfl
      | cons a w' => simp [replaceAllF, strPre] at h
    | cons c t =>
      cases w with
      | nil => rfl
      | cons a w' =>
        by_cases hp : 0 < p.length ∧ strPre ci p (c :: t) = true
        · rw [replaceAllF, if_pos hp] at h
          have : strPre ci' (a :: w') ((r0 :: r') ++
              replaceAllF ci p (r0 :: r') n (t.drop (p.length - 1))) =
              (chEq ci' a r0 && strPre ci' w' (r' ++
                replaceAllF ci p (r0 :: r') n (t.drop (p.length - 1)))) := by
            simp [strPre]
          rw [this, hw a (by simp)] at h
          simp at h
        · rw [replaceAllF, if_neg hp] at h
          have h2 : (chEq ci' a c && strPre ci' w'
              (replaceAllF ci p (r0 :: r') n t)) = true := by
            simpa [strPre] using h
          have h3 := Bool.and_elim_left h2
          have h4 := Bool.and_elim_right h2
          have h5 := ih w' t (fun x hx => hw x (by simp [hx])) h4
          simp [strPre, h3, h5]

theorem scriptCloseL : strToL "</script>" = [60, 47, 115, 99, 114, 105, 112, 116, 62] := by
  decide

theorem scriptCloseR : strToL "<\\/script>" = [60, 92, 47, 115, 99, 114, 105, 112, 116, 62] := by
  decide

theorem commentL : strToL "<!--" = [60, 33, 45, 45] := by decide

theorem commentR : strToL "<\\!--" = [60, 92, 33, 45, 45] := by decide

theorem noOcc_append_script (z : Str) (hz : hasOccB true (strToL "</script>") z = false) :
    hasOccB true (strToL "</script>") (strToL "<\\/script>" ++ z) = false := by
  rw [scriptCloseL, scriptCloseR] at *
  simp [hasOccB, strPre, chEq, lc, hz]

theorem noOcc_script (fuel : Nat) (l : Str) :
    hasOccB true (strToL "</script>")
      (replaceAllF true (strToL "</script>") (strToL "<\\/script>") fuel l) = false := by
  induction fuel generalizing l with
  | zero =>
    cases l <;> simp [replaceAllF, scriptCloseL, hasOccB, strPre]
  | succ n ih =>
    cases l with
    | nil => simp [replaceAllF, scriptCloseL, hasOccB, strPre]
    | cons c t =>
      by_cases hp : 0 < (strToL "</script>").length ∧
          strPre true (strToL "</script>") (c :: t) = true
      · rw [replaceAllF, if_pos hp]
        exact noOcc_append_script _ (ih _)
      · rw [replaceAllF, if_neg hp]
        by_cases hs : strPre true (strToL "</script>")
            (c :: replaceAllF true (strToL "</script>") (strToL "<\\/script>") n t) = true
        · exfalso
          apply hp
          refine ⟨by rw [scriptCloseL]; simp, ?_⟩
          have h2 : (chEq true 60 c && strPre true [47, 115, 99, 114, 105, 112, 116, 62]
              (replaceAllF true (strToL "</script>") (strToL "<\\/script>") n t)) = true := by
            rw [scriptCloseL] at hs
            simpa [strPre] using hs
          have h3 := Bool.and_elim_left h2
          have h4 := Bool.and_elim_right h2
          have h5 : strPre true [47, 115, 99, 114, 105, 112, 116, 62] t = true := by
            have hw : ∀ a ∈ ([47, 115, 99, 114, 105, 112, 116, 62] : Str),
                chEq true a 60 = false := by decide
            have := strPre_pullback true true (strToL "</script>") 60
              (strToL "\\/script>") n [47, 115, 99, 114, 105, 112, 116, 62] t hw
            apply this
            have hr : strToL "<\\/script>" = 60 :: strToL "\\/script>" := by decide
            rw [hr] at h4
            exact h4
          rw [scriptCloseL]
          simp [strPre, h3, h5]
        · have hout := ih t
          simp [hasOccB, hs, hout]

theorem noOcc_append_comment (z : Str) (hz : hasOccB false (strToL "<!--") z = false) :
    hasOccB false (strToL "<!--") (strToL "<\\!--" ++ z) = false := by
  rw [commentL, commentR] at *
  simp [hasOccB, strPre, chEq, hz]

theorem noOcc_comment (fuel : Nat) (l : Str) :
    hasOccB false (strToL "<!--")
      (replaceAllF false (strToL "<!--") (strToL "<\\!--") fuel l) = false := by
  induction fuel generalizing l with
  | zero =>
    cases l <;> simp [replaceAllF, commentL, hasOccB, strPre]
  | succ n ih =>
    cases l with
    | nil => simp [replaceAllF, commentL, hasOccB, strPre]
    | cons c t =>
      by_cases hp : 0 < (strToL "<!--").length ∧ strPre false (strToL "<!--") (c :: t) = true
      · rw [replaceAllF, if_pos hp]
        exact noOcc_append_comment _ (ih _)
      · rw [replaceAllF, if_neg hp]
        by_cases hs : strPre false (strToL "<!--")
            (c :: replaceAllF false (strToL "<!--") (strToL "<\\!--") n t) = true
        · exfalso
          apply hp
          refine ⟨by rw [commentL]; simp, ?_⟩
          have h2 : (chEq false 60 c && strPre false [33, 45, 45]
              (replaceAllF false (strToL "<!--") (strToL "<\\!--") n t)) = true := by
            rw [commentL] at hs
            simpa [strPre] using hs
          have h3 := Bool.and_elim_left h2
          have h4 := Bool.and_elim_right h2
          have h5 : strPre false [33, 45, 45] t = true := by
            have hw : ∀ a ∈ ([33, 45, 45] : Str), chEq false a 60 = false := by decide
            have := strPre_pullback false false (strToL "<!--") 60
              (strToL "\\!--") n [33, 45, 45] t hw
            apply this
            have hr : strToL "<\\!--" = 60 :: strToL "\\!--" := by decide
            rw [hr] at h4
            exact h4
          rw [commentL]
          simp [strPre, h3, h5]
        · have hout := ih t
          simp [hasOccB, hs, hout]

theorem noOcc_script_preserved (fuel : Nat) (l : Str)
    (hl : hasOccB true (strToL "</script>") l = false) :
    hasOccB true (strToL "</script>")
      (replaceAllF false (strToL "<!--") (strToL "<\\!--") fuel l) = false := by
  induction fuel generalizing l with
  | zero =>
    cases l <;> simp [replaceAllF, scriptCloseL, hasOccB, strPre]
  | succ n ih =>
    cases l with
    | nil => simp [replaceAllF, scriptCloseL, hasOccB, strPre]
    | cons c t =>
      have hl2 : hasOccB true (strToL "</script>") t = false := by
        have := hl
        simp [hasOccB] at this
        exact this.2
      have hl1 : strPre true (strToL "</script>") (c :: t) = false := by
        have := hl
        simp [hasOccB] at this
        exact this.1
      by_cases hp : 0 < (strToL "<!--").length ∧ strPre false (strToL "<!--") (c :: t) = true
      · rw [replaceAllF, if_pos hp]
        have hout := ih (t.drop ((strToL "<!--").length - 1))
          (hasOccB_drop true _ _ _ hl2)
        rw [scriptCloseL, commentR] at *
        simp [hasOccB, strPre, chEq, lc, hout]
      · rw [replaceAllF, if_neg hp]
        by_cases hs : strPre true (strToL "</script>")
            (c :: replaceAllF false (strToL "<!--") (strToL "<\\!--") n t) = true
        · exfalso
          have h2 : (chEq true 60 c && strPre true [47, 115, 99, 114, 105, 112, 116, 62]
              (replaceAllF false (strToL "<!--") (strToL "<\\!--") n t)) = true := by
            rw [scriptCloseL] at hs
            simpa [strPre] using hs
          have h3 := Bool.and_elim_left h2
          have h4 := Bool.and_elim_right h2
          have h5 : strPre true [47, 115, 99, 114, 105, 112, 116, 62] t = true := by
            have hw : ∀ a ∈ ([47, 115, 99, 114, 105, 112, 116, 62] : Str),
                chEq true a 60 = false := by decide
            have := strPre_pullback false true (strToL "<!--") 60
              (strToL "\\!--") n [47, 115, 99, 114, 105, 112, 116, 62] t hw
            apply this
            have hr : strToL "<\\!--" = 60 :: strToL "\\!--" := by decide
            rw [hr] at h4
            exact h4
          have : strPre true (strToL "</script>") (c :: t) = true := by
            rw [scriptCloseL]
            simp [strPre, h3, h5]
          simp [this] at hl1
        · have hout := ih t hl2
          simp [hasOccB, hs, hout]

/-- The serialized-record sanitizer: its output contains no `</script>` in
any letter case and no `<!--`. -/
theorem sanitize_safe (s : Str) :
    hasOccB true (strToL "</script>") (sanitize s) = false ∧
      hasSubstr (strToL "<!--") (sanitize s) = false := by
  constructor
  · exact noOcc_script_preserved _ _ (noOcc_script _ _)
  · exact noOcc_comment _ _

/-! ## Lemmas about `jsTrim` -/

theorem head?_dropWhile_false (q : Nat → Bool) (l : Str) (a : Nat)
    (h : (l.dropWhile q).head? = some a) : q a = false := by
  have h2 := List.head?_dropWhile_not q l
  rw [h] at h2
  exact h2

theorem dropWhile_of_head (q : Nat → Bool) (l : Str)
    (h : ∀ a, l.head? = some a → q a = false) : l.dropWhile q = l := by
  cases l with
  | nil => rfl
  | cons c t =>
    have hc := h c rfl
    simp [List.dropWhile_cons, hc]

theorem getLast?_dropWhile (q : Nat → Bool) (l : Str) (h : l.dropWhile q ≠ []) :
    (l.dropWhile q).getLast? = l.getLast? := by
  induction l with
  | nil => simp at h
  | cons c t ih =>
    by_cases hc : q c
    · rw [List.dropWhile_cons, if_pos hc] at h ⊢
      rw [ih h]
      have ht : t ≠ [] := by
        intro he
        rw [he] at h
        simp at h
      cases t with
      | nil => exact absurd rfl ht
      | cons b u => rw [List.getLast?_cons_cons]
    · rw [List.dropWhile_cons, if_neg hc]

theorem jsTrim_idem (l : Str) : jsTrim (jsTrim l) = jsTrim l := by
  unfold jsTrim
  have hBhead : ∀ a, ((l.dropWhile isWsC).reverse.dropWhile isWsC).head? = some a →
      isWsC a = false := fun a h => head?_dropWhile_false _ _ _ h
  have h1 : ((l.dropWhile isWsC).reverse.dropWhile isWsC).reverse.dropWhile isWsC =
      ((l.dropWhile isWsC).reverse.dropWhile isWsC).reverse := by
    apply dropWhile_of_head
    intro a ha
    rw [List.head?_reverse] at ha
    have hBne : (l.dropWhile isWsC).reverse.dropWhile isWsC ≠ [] := by
      intro h0
      rw [h0] at ha
      simp at ha
    rw [getLast?_dropWhile _ _ hBne, List.getLast?_reverse] at ha
    exact head?_dropWhile_false isWsC l a ha
  rw [h1, List.reverse_reverse,
    dropWhile_of_head _ _ hBhead]

/-! ## Parse invariants -/

theorem matchBullet_trimmed (line : Str) (kv : Str × Str)
    (h : matchBullet line = some kv) : jsTrim kv.1 = kv.1 ∧ jsTrim kv.2 = kv.2 := by
  unfold matchBullet at h
  split at h
  · rename_i rest
    split at h
    · rename_i pre post heq
      split at h
      · injection h with h'
        subst h'
        exact ⟨jsTrim_idem _, jsTrim_idem _⟩
      · exact absurd h (by simp)
    · exact absurd h (by simp)
  · exact absurd h (by simp)

theorem mapSet_mem (m : List (Str × Str)) (k v : Str) (q : Str × Str)
    (h : q ∈ mapSet m k v) : q ∈ m ∨ q = (k, v) := by
  unfold mapSet at h
  split at h
  · rw [List.mem_map] at h
    obtain ⟨p, hp, hq⟩ := h
    by_cases hb : (p.1 == k) = true
    · right
      rw [← hq]
      simp [hb]
    · left
      rw [← hq]
      simpa [hb] using hp
  · rw [List.mem_append] at h
    rcases h with h | h
    · exact Or.inl h
    · right
      simpa using h

theorem buildMaps_vm_mem (ps : List (Str × Str)) (q : Str × Str)
    (h : q ∈ (buildMaps ps).2) : ∃ p ∈ ps, q.2 = p.2 := by
  unfold buildMaps at h
  suffices H : ∀ (l : List (Str × Str)) (m : List (Str × Str) × List (Str × Str)),
      q ∈ (l.foldl (fun m p => (mapSet m.1 (lowerStr p.1) p.1, mapSet m.2 (lowerStr p.1) p.2)) m).2 →
      q ∈ m.2 ∨ ∃ p ∈ l, q.2 = p.2 by
    rcases H ps ([], []) h with h2 | h2
    · simp at h2
    · exact h2
  intro l
  induction l with
  | nil => intro m hm; exact Or.inl hm
  | cons p l ih =>
    intro m hm
    rw [List.foldl_cons] at hm
    rcases ih _ hm with h2 | h2
    · rcases mapSet_mem _ _ _ _ h2 with h3 | h3
      · exact Or.inl h3
      · right
        exact ⟨p, by simp, by rw [h3]⟩
    · obtain ⟨p', hp', hq⟩ := h2
      exact Or.inr ⟨p', by simp [hp'], hq⟩

theorem buildObj_mem (fm : List (Str × Str)) (vm : List (Str × Str))
    (obj₀ rec : Record)
    (h : vm.foldlM
      (fun obj p =>
        (titleCase ((alookup fm p.1).getD [])).map (fun lab => mapSet obj lab p.2))
      obj₀ = some rec) :
    ∀ q ∈ rec, q ∈ obj₀ ∨ ∃ p ∈ vm, q.2 = p.2 := by
  induction vm generalizing obj₀ with
  | nil =>
    intro q hq
    rw [List.foldlM_nil] at h
    injection h with h'
    subst h'
    exact Or.inl hq
  | cons p vm ih =>
    intro q hq
    rw [List.foldlM_cons] at h
    cases ht : titleCase ((alookup fm p.1).getD []) with
    | none =>
      rw [ht] at h
      simp at h
    | some lab =>
      rw [ht] at h
      have h' : vm.foldlM
          (fun obj p =>
            (titleCase ((alookup fm p.1).getD [])).map (fun lab => mapSet obj lab p.2))
          (mapSet obj₀ lab p.2) = some rec := h
      rcases ih _ h' q hq with h2 | h2
      · rcases mapSet_mem _ _ _ _ h2 with h3 | h3
        · exact Or.inl h3
        · exact Or.inr ⟨p, by simp, by rw [h3]⟩
      · obtain ⟨p', hp', hv⟩ := h2
        exact Or.inr ⟨p', by simp [hp'], hv⟩

theorem procLines_trimmed (raw : Str) (l : Str) (h : l ∈ procLines raw) :
    jsTrim l = l := by
  unfold procLines at h
  rw [List.mem_filter] at h
  obtain ⟨h1, -⟩ := h
  rw [List.mem_map] at h1
  obtain ⟨x, -, hx⟩ := h1
  rw [← hx]
  exact jsTrim_idem x

theorem parse_ok_trimmed (raw : Str) (rec : Record)
    (h : parseObjectText raw = .ok rec) : ∀ q ∈ rec, jsTrim q.2 = q.2 := by
  intro q hq
  unfold parseObjectText at h
  cases hn : findNameLine raw with
  | none => rw [hn] at h; exact absurd h (by simp)
  | some nameLine =>
    rw [hn] at h
    simp only at h
    split at h
    · cases hb : buildObj nameLine (buildMaps (bulletPairs raw)).1
        (buildMaps (bulletPairs raw)).2 with
      | none => rw [hb] at h; exact absurd h (by simp)
      | some rec' =>
        rw [hb] at h
        injection h with h'
        subst h'
        unfold buildObj at hb
        rcases buildObj_mem _ _ _ _ hb q hq with h2 | h2
        · have hql : q.2 = nameLine := by
            rcases List.mem_singleton.mp h2 with h3
            rw [h3]
          rw [hql]
          exact procLines_trimmed raw nameLine
            (List.mem_of_find?_eq_some hn)
        · obtain ⟨p, hp, hv⟩ := h2
          obtain ⟨p', hp', hv'⟩ := buildMaps_vm_mem _ _ hp
          rw [hv, hv']
          unfold bulletPairs at hp'
          rw [List.mem_filterMap] at hp'
          obtain ⟨line, -, hm⟩ := hp'
          exact (matchBullet_trimmed _ _ hm).2
    · exact absurd h (by simp)

/-! ## Round-trip lemmas -/

theorem getFormValue_eq (dp : DateParse) (dn : DateNorm) (k v : Str)
    (hv : jsTrim v = v)
    (hprob : isProbKey k = true → endsPctWs v = true ∧ jsTrim (stripPctWs v) ≠ [] ∧
      jsTrim (stripPctWs v) ++ [37] = v)
    (hdate : isDateKey k = true → forceTextKey k = false → isIsoDate dp v = true →
      strictYMD v = true) :
    getFormValue dp dn k v = v := by
  by_cases hP : isProbKey k = true
  · obtain ⟨he, hne, heq⟩ := hprob hP
    have hcond : (isProbKey k && endsPctWs v) = true := by rw [hP, he]; rfl
    unfold getFormValue fieldInputValue
    rw [hcond]
    simp only [if_true]
    rw [esc_id, jsTrim_idem, hP]
    simp only [if_true]
    have hne2 : (jsTrim (stripPctWs v)).isEmpty = false := by
      cases hh : jsTrim (stripPctWs v) with
      | nil => exact absurd hh hne
      | cons a t => rfl
    rw [hne2]
    simpa using heq
  · have hP2 : isProbKey k = false := by
      cases hh : isProbKey k with
      | true => exact absurd hh hP
      | false => rfl
    have hcond : (isProbKey k && endsPctWs v) = false := by rw [hP2]; rfl
    have hdcond : (!forceTextKey k && isDateKey k && isIsoDate dp v && !strictYMD v) = false := by
      cases hF : forceTextKey k with
      | true => rfl
      | false =>
        cases hD : isDateKey k with
        | false => rfl
        | true =>
          cases hI : isIsoDate dp v with
          | false => rfl
          | true =>
            rw [hdate hD hF hI]
            simp
    unfold getFormValue fieldInputValue
    rw [hcond, hdcond]
    simp only [if_false, Bool.false_eq_true]
    rw [esc_id, hv, hP2]
    simp

theorem roundTrip_noChanges (dp : DateParse) (dn : DateNorm) (raw : Str) (rec : Record)
    (hparse : parseObjectText raw = .ok rec)
    (hprob : ∀ p ∈ rec, isProbKey p.1 = true → endsPctWs p.2 = true ∧
      jsTrim (stripPctWs p.2) ≠ [] ∧ jsTrim (stripPctWs p.2) ++ [37] = p.2)
    (hdate : ∀ p ∈ rec, isDateKey p.1 = true → forceTextKey p.1 = false →
      isIsoDate dp p.2 = true → strictYMD p.2 = true) :
    roundTripPrompt dp dn rec = strToL "No changes detected." := by
  have hnil : changedList rec (formCurrent dp dn rec) = [] := by
    rw [changedList, List.filterMap_eq_nil_iff]
    intro k hk
    unfold changeEntry
    cases hl : alookup rec k with
    | none => rfl
    | some oldV =>
      unfold alookup at hl
      cases hf : rec.find? (fun p => p.1 == k) with
      | none => rw [hf] at hl; exact absurd hl (by simp)
      | some p₀ =>
        rw [hf] at hl
        have hv : p₀.2 = oldV := by injection hl
        have hmem : p₀ ∈ rec := List.mem_of_find?_eq_some hf
        have hcur : formCurrent dp dn rec k = some (getFormValue dp dn p₀.1 p₀.2) := by
          unfold formCurrent
          rw [hf]
          rfl
        have heq : getFormValue dp dn p₀.1 p₀.2 = p₀.2 :=
          getFormValue_eq dp dn p₀.1 p₀.2 (parse_ok_trimmed raw rec hparse p₀ hmem)
            (hprob p₀ hmem) (hdate p₀ hmem)
        subst hv
        rw [hcur]
        simp [heq]
  unfold roundTripPrompt buildPrompt
  rw [hnil]
  rfl

/-! ## Diff-engine lemmas -/

theorem mem_insertNatKey (x a : Str) (l : List Str) :
    a ∈ insertNatKey x l ↔ a = x ∨ a ∈ l := by
  induction l with
  | nil => simp [insertNatKey]
  | cons y t ih =>
    unfold insertNatKey
    split
    · simp
    · rw [List.mem_cons, ih, List.mem_cons]
      tauto

theorem mem_sortNatKeys (a : Str) (l : List Str) :
    a ∈ sortNatKeys l ↔ a ∈ l := by
  induction l with
  | nil => simp [sortNatKeys]
  | cons x t ih =>
    have h1 : sortNatKeys (x :: t) = insertNatKey x (sortNatKeys t) := rfl
    rw [h1, mem_insertNatKey, ih, List.mem_cons]

theorem mem_jsKeys (rec : Record) (k : Str) :
    k ∈ jsKeys rec ↔ k ∈ rec.map (·.1) := by
  unfold jsKeys
  rw [List.mem_append, mem_sortNatKeys, List.mem_filter, List.mem_filter]
  by_cases hI : isIntKey k = true
  · simp [hI]
  · simp [hI]

theorem changeEntry_none_iff (original : Record) (current : Str → Option Str) (k : Str) :
    changeEntry original current k = none ↔ ¬ diffKey original current k := by
  unfold changeEntry diffKey
  cases hl : alookup original k with
  | none => simp
  | some v =>
    simp only [Option.some.injEq]
    have hex : (∃ v', v = v' ∧
        (if isDateKey k then splitT v' else v') ≠
          (if isDateKey k then splitT ((current k).getD []) else (current k).getD [])) ↔
        ((if isDateKey k then splitT v else v) ≠
          (if isDateKey k then splitT ((current k).getD []) else (current k).getD [])) := by
      constructor
      · rintro ⟨v', hv', hne⟩
        subst hv'
        exact hne
      · intro hne
        exact ⟨v, rfl, hne⟩
    rw [hex, ne_eq, not_not]
    by_cases hEq : v = (current k).getD []
    · rw [if_pos hEq]
      constructor
      · intro _
        rw [hEq]
      · intro _
        rfl
    · rw [if_neg hEq]
      by_cases hS : (if isDateKey k then splitT v else v) =
          (if isDateKey k then splitT ((current k).getD []) else (current k).getD [])
      · rw [if_pos hS]
        exact ⟨fun _ => hS, fun _ => rfl⟩
      · rw [if_neg hS]
        constructor
        · intro hcontr
          exact absurd hcontr (by simp)
        · intro hs
          exact absurd hs hS

theorem changedList_nil_iff (original : Record) (current : Str → Option Str) :
    changedList original current = [] ↔ ∀ k, ¬ diffKey original current k := by
  rw [changedList, List.filterMap_eq_nil_iff]
  constructor
  · intro h k
    by_cases hk : k ∈ jsKeys original
    · rw [← changeEntry_none_iff]
      exact h k hk
    · intro hd
      obtain ⟨v, hv, -⟩ := hd
      apply hk
      rw [mem_jsKeys]
      unfold alookup at hv
      cases hf : original.find? (fun p => p.1 == k) with
      | none => rw [hf] at hv; exact absurd hv (by simp)
      | some p₀ =>
        have hmem := List.mem_of_find?_eq_some hf
        have hbeq := List.find?_some hf
        have hk2 : p₀.1 = k := by
          have : (p₀.1 == k) = true := hbeq
          exact beq_iff_eq.mp this
        rw [List.mem_map]
        exact ⟨p₀, hmem, hk2⟩
  · intro h k _
    rw [changeEntry_none_iff]
    exact h k

theorem buildPrompt_pos (original : Record) (current : Str → Option Str) (c : Str)
    (cs : List Str) (h : changedList original current = c :: cs) :
    buildPrompt original current =
      strToL "Update " ++ (if cs.isEmpty then strToL "this field" else strToL "these fields") ++
        strToL ": " ++ List.intercalate (strToL "; ") (c :: cs) ++ strToL "." := by
  unfold buildPrompt
  rw [h]
  cases cs with
  | nil => simp
  | cons d ds => simp

theorem buildPrompt_ne_noChanges (original : Record) (current : Str → Option Str)
    (c : Str) (cs : List Str) (h : changedList original current = c :: cs) :
    buildPrompt original current ≠ strToL "No changes detected." := by
  rw [buildPrompt_pos original current c cs h]
  intro he
  have h1 : strToL "Update " ++
      ((if cs.isEmpty then strToL "this field" else strToL "these fields") ++
        (strToL ": " ++ (List.intercalate (strToL "; ") (c :: cs) ++ strToL "."))) =
      strToL "No changes detected." := by
    simpa [List.append_assoc] using he
  have h2 : strToL "Update " = 85 :: strToL "pdate " := by decide
  rw [h2] at h1
  have h3 : strToL "No changes detected." = 78 :: strToL "o changes detected." := by decide
  rw [h3] at h1
  simp at h1

/-! ## Lookup lemmas for the parser's maps -/

theorem find?_mapSet_update (m : List (Str × Str)) (k v : Str) (h : hasKey m k = true) :
    (m.map (fun p => if p.1 == k then (k, v) else p)).find? (fun p => p.1 == k) =
      some (k, v) := by
  induction m with
  | nil => simp [hasKey] at h
  | cons p t ih =>
    by_cases hp : (p.1 == k) = true
    · rw [List.map_cons, if_pos hp]
      rw [List.find?_cons]
      simp
    · have hp2 : (p.1 == k) = false := by simpa using hp
      rw [List.map_cons, if_neg hp]
      rw [List.find?_cons, hp2]
      apply ih
      unfold hasKey at h ⊢
      rw [List.any_cons, hp2] at h
      simpa using h

theorem alookup_mapSet_same (m : List (Str × Str)) (k v : Str) :
    alookup (mapSet m k v) k = some v := by
  unfold mapSet alookup
  by_cases h : hasKey m k = true
  · rw [if_pos h, find?_mapSet_update m k v h]
    rfl
  · rw [if_neg h, List.find?_append]
    have h2 : m.find? (fun p => p.1 == k) = none := by
      rw [List.find?_eq_none]
      intro p hp hc
      apply h
      unfold hasKey
      rw [List.any_eq_true]
      exact ⟨p, hp, hc⟩
    rw [h2]
    simp [List.find?]

theorem alookup_mapSet_other (m : List (Str × Str)) (k v k' : Str) (h : k' ≠ k) :
    alookup (mapSet m k v) k' = alookup m k' := by
  unfold mapSet alookup
  by_cases hk : hasKey m k = true
  · rw [if_pos hk]
    congr 1
    clear hk
    induction m with
    | nil => rfl
    | cons p t ih =>
      rw [List.map_cons]
      by_cases hp : (p.1 == k) = true
      · rw [if_pos hp]
        have hp1 : p.1 = k := beq_iff_eq.mp hp
        have hno : ((k : Str) == k') = false := by
          rw [beq_eq_false_iff_ne]
          intro he
          exact h he.symm
        have hno2 : (p.1 == k') = false := by
          rw [hp1]
          exact hno
        rw [List.find?_cons, List.find?_cons]
        simp only [hno, hno2]
        exact ih
      · rw [if_neg hp]
        rw [List.find?_cons, List.find?_cons]
        by_cases hq : (p.1 == k') = true
        · simp only [hq]
        · have hq2 : (p.1 == k') = false := by simpa using hq
          simp only [hq2]
          exact ih
  · rw [if_neg hk]
    congr 1
    rw [List.find?_append]
    have h2 : ([(k, v)].find? (fun p => p.1 == k')) = none := by
      rw [List.find?_eq_none]
      intro p hp hc
      rw [List.mem_singleton] at hp
      subst hp
      exact h (beq_iff_eq.mp hc).symm
    rw [h2]
    cases m.find? (fun p => p.1 == k') <;> rfl

theorem buildMaps_go (ps : List (Str × Str)) (L : Str) :
    ∀ m : List (Str × Str) × List (Str × Str),
      alookup (ps.foldl
        (fun m p => (mapSet m.1 (lowerStr p.1) p.1, mapSet m.2 (lowerStr p.1) p.2)) m).1 L =
        ((lastBy ps L).map (·.1)).or (alookup m.1 L) ∧
      alookup (ps.foldl
        (fun m p => (mapSet m.1 (lowerStr p.1) p.1, mapSet m.2 (lowerStr p.1) p.2)) m).2 L =
        ((lastBy ps L).map (·.2)).or (alookup m.2 L) := by
  induction ps with
  | nil =>
    intro m
    simp [lastBy]
  | cons p t ih =>
    intro m
    rw [List.foldl_cons]
    have hlast : lastBy (p :: t) L =
        (lastBy t L).or (if lowerStr p.1 == L then some p else none) := by
      unfold lastBy
      rw [List.reverse_cons, List.find?_append]
      congr 1
      by_cases hp : (lowerStr p.1 == L) = true
      · rw [if_pos hp]
        exact List.find?_cons_of_pos _ hp
      · have hp2 : (lowerStr p.1 == L) = false := by simpa using hp
        rw [if_neg hp, List.find?_cons, hp2]
        rfl
    obtain ⟨ih1, ih2⟩ := ih (mapSet m.1 (lowerStr p.1) p.1, mapSet m.2 (lowerStr p.1) p.2)
    rw [hlast]
    cases hl : lastBy t L with
    | some q =>
      rw [hl] at ih1 ih2
      constructor
      · rw [ih1]
        simp
      · rw [ih2]
        simp
    | none =>
      rw [hl] at ih1 ih2
      simp only [Option.map_none', Option.none_or] at ih1 ih2
      by_cases hp : (lowerStr p.1 == L) = true
      · have hp1 : lowerStr p.1 = L := beq_iff_eq.mp hp
        rw [if_pos hp]
        constructor
        · rw [ih1, hp1, alookup_mapSet_same]
          simp
        · rw [ih2, hp1, alookup_mapSet_same]
          simp
      · have hp1 : L ≠ lowerStr p.1 := by
          intro he
          apply hp
          rw [he]
          simp
        rw [if_neg hp]
        constructor
        · rw [ih1, alookup_mapSet_other _ _ _ _ hp1]
          simp
        · rw [ih2, alookup_mapSet_other _ _ _ _ hp1]
          simp

theorem buildMaps_fm_lookup (ps : List (Str × Str)) (L : Str) :
    alookup (buildMaps ps).1 L = (lastBy ps L).map (·.1) := by
  unfold buildMaps
  have h := (buildMaps_go ps L ([], [])).1
  rw [h]
  cases lastBy ps L <;> rfl

theorem buildMaps_vm_lookup (ps : List (Str × Str)) (L : Str) :
    alookup (buildMaps ps).2 L = (lastBy ps L).map (·.2) := by
  unfold buildMaps
  have h := (buildMaps_go ps L ([], [])).2
  rw [h]
  cases lastBy ps L <;> rfl

theorem hasKey_iff_isSome (m : List (Str × Str)) (k : Str) :
    hasKey m k = (alookup m k).isSome := by
  unfold hasKey alookup
  cases hf : m.find? (fun p => p.1 == k) with
  | none =>
    simp only [Option.map_none', Option.isSome_none]
    rw [List.find?_eq_none] at hf
    cases hh : (m.any fun p => p.1 == k) with
    | false => rfl
    | true =>
      rw [List.any_eq_true] at hh
      obtain ⟨p, hp, hb⟩ := hh
      exact absurd hb (hf p hp)
  | some p =>
    simp only [Option.map_some', Option.isSome_some]
    rw [List.any_eq_true]
    have h1 := List.mem_of_find?_eq_some hf
    have h2 := List.find?_some hf
    exact ⟨p, h1, h2⟩

/-! ## Lookup through the object-assembly fold -/

theorem buildObj_lookup (fm : List (Str × Str)) :
    ∀ (vm : List (Str × Str)) (obj₀ rec : Record),
      vm.foldlM
        (fun obj p =>
          (titleCase ((alookup fm p.1).getD [])).map (fun lab => mapSet obj lab p.2))
        obj₀ = some rec →
      ∀ lab : Str,
        alookup rec lab =
          ((vm.reverse.find? (fun p =>
            titleCase ((alookup fm p.1).getD []) == some lab)).map (·.2)).or
            (alookup obj₀ lab) := by
  intro vm
  induction vm with
  | nil =>
    intro obj₀ rec h lab
    rw [List.foldlM_nil] at h
    injection h with h'
    subst h'
    simp
  | cons p vm ih =>
    intro obj₀ rec h lab
    rw [List.foldlM_cons] at h
    cases ht : titleCase ((alookup fm p.1).getD []) with
    | none =>
      rw [ht] at h
      simp at h
    | some labP =>
      rw [ht] at h
      have h' : vm.foldlM
          (fun obj p =>
            (titleCase ((alookup fm p.1).getD [])).map (fun lab => mapSet obj lab p.2))
          (mapSet obj₀ labP p.2) = some rec := h
      have IH := ih _ _ h' lab
      rw [List.reverse_cons, List.find?_append]
      cases hfind : vm.reverse.find?
          (fun p => titleCase ((alookup fm p.1).getD []) == some lab) with
      | some q =>
        rw [hfind] at IH
        rw [IH]
        simp
      | none =>
        rw [hfind] at IH
        simp only [Option.map_none', Option.none_or] at IH
        rw [IH]
        by_cases hq : (titleCase ((alookup fm p.1).getD []) == some lab) = true
        · have hPl : labP = lab := by
            rw [ht] at hq
            have h2 := beq_iff_eq.mp hq
            injection h2
          subst hPl
          simp only [List.find?_cons, hq]
          rw [alookup_mapSet_same]
          simp
        · have hq2 : (titleCase ((alookup fm p.1).getD []) == some lab) = false := by
            simpa using hq
          simp only [List.find?_cons, hq2]
          have hne : lab ≠ labP := by
            intro he
            apply hq
            rw [ht, he]
            simp
          rw [alookup_mapSet_other _ _ _ _ hne]
          simp

/-! ## Title-Case normalization lemmas -/

theorem uc_of_lc_eq (a b : Nat) (h : lc a = lc b) : uc a = uc b := by
  unfold lc at h
  unfold uc
  split_ifs at * <;> omega

theorem isSepC_lc (c : Nat) : isSepC (lc c) = isSepC c := by
  unfold isSepC isWsC lc
  split_ifs with h
  · refine Bool.eq_iff_iff.mpr ?_
    simp only [Bool.or_eq_true, beq_iff_eq]
    omega
  · rfl

theorem splitSeps_sep_nil (c : Nat) (hc : isSepC c = true) : splitSeps [c] = [[], []] := by
  show (if isSepC c = true then [[], []] else [[c]]) = [[], []]
  rw [if_pos hc]

theorem splitSeps_sep_sep (c x : Nat) (t : Str) (hc : isSepC c = true)
    (hx : isSepC x = true) : splitSeps (c :: x :: t) = splitSeps (x :: t) := by
  show (if isSepC c = true
      then (if isSepC x = true then splitSeps (x :: t) else [] :: splitSeps (x :: t))
      else match splitSeps (x :: t) with | p :: ps => (c :: p) :: ps | [] => [[c]]) =
    splitSeps (x :: t)
  rw [if_pos hc, if_pos hx]

theorem splitSeps_sep_nonsep (c x : Nat) (t : Str) (hc : isSepC c = true)
    (hx : isSepC x = false) : splitSeps (c :: x :: t) = [] :: splitSeps (x :: t) := by
  show (if isSepC c = true
      then (if isSepC x = true then splitSeps (x :: t) else [] :: splitSeps (x :: t))
      else match splitSeps (x :: t) with | p :: ps => (c :: p) :: ps | [] => [[c]]) =
    [] :: splitSeps (x :: t)
  rw [if_pos hc, if_neg (by rw [hx]; simp)]

theorem splitSeps_cons_eq (c : Nat) (t : Str) (hc : isSepC c = false) :
    splitSeps (c :: t) =
      match splitSeps t with | p :: ps => (c :: p) :: ps | [] => [[c]] := by
  show (if isSepC c = true
      then ((match t with
        | x :: _ => if isSepC x = true then splitSeps t else [] :: splitSeps t
        | [] => [[], []] : List Str))
      else ((match splitSeps t with
        | p :: ps => (c :: p) :: ps
        | [] => [[c]] : List Str))) =
    ((match splitSeps t with | p :: ps => (c :: p) :: ps | [] => [[c]] : List Str))
  rw [if_neg (by rw [hc]; simp)]

theorem splitSeps_nonsep (c : Nat) (t : Str) (p : Str) (ps : List Str)
    (hc : isSepC c = false) (ht : splitSeps t = p :: ps) :
    splitSeps (c :: t) = (c :: p) :: ps := by
  rw [splitSeps_cons_eq c t hc, ht]

theorem splitSeps_ne_nil (l : Str) : splitSeps l ≠ [] := by
  induction l with
  | nil => decide
  | cons c t ih =>
    by_cases h : isSepC c = true
    · cases t with
      | nil =>
        rw [splitSeps_sep_nil c h]
        simp
      | cons x t' =>
        by_cases h2 : isSepC x = true
        · rw [splitSeps_sep_sep c x t' h h2]
          exact ih
        · rw [splitSeps_sep_nonsep c x t' h (by simpa using h2)]
          simp
    · have h' : isSepC c = false := by simpa using h
      cases hs : splitSeps t with
      | nil => exact absurd hs ih
      | cons p ps =>
        rw [splitSeps_nonsep c t p ps h' hs]
        simp

theorem splitSeps_map_lc (l : Str) : splitSeps (lowerStr l) = (splitSeps l).map lowerStr := by
  induction l with
  | nil => rfl
  | cons c t ih =>
    have hlow : lowerStr (c :: t) = lc c :: lowerStr t := rfl
    rw [hlow]
    by_cases h : isSepC c = true
    · have h' : isSepC (lc c) = true := by rw [isSepC_lc]; exact h
      cases t with
      | nil =>
        rw [splitSeps_sep_nil c h]
        show splitSeps [lc c] = _
        rw [splitSeps_sep_nil (lc c) h']
        rfl
      | cons x t' =>
        have hlow2 : lowerStr (x :: t') = lc x :: lowerStr t' := rfl
        by_cases h2 : isSepC x = true
        · have h2' : isSepC (lc x) = true := by rw [isSepC_lc]; exact h2
          show splitSeps (lc c :: lc x :: lowerStr t') = _
          rw [splitSeps_sep_sep (lc c) (lc x) (lowerStr t') h' h2',
            splitSeps_sep_sep c x t' h h2, ← hlow2]
          exact ih
        · have h2f : isSepC x = false := by simpa using h2
          have h2' : isSepC (lc x) = false := by rw [isSepC_lc]; exact h2f
          show splitSeps (lc c :: lc x :: lowerStr t') = _
          rw [splitSeps_sep_nonsep (lc c) (lc x) (lowerStr t') h' h2',
            splitSeps_sep_nonsep c x t' h h2f, ← hlow2, ih]
          rfl
    · have hf : isSepC c = false := by simpa using h
      have hf' : isSepC (lc c) = false := by rw [isSepC_lc]; exact hf
      cases hs : splitSeps t with
      | nil => exact absurd hs (splitSeps_ne_nil t)
      | cons p ps =>
        have hs' : splitSeps (lowerStr t) = lowerStr p :: ps.map lowerStr := by
          rw [ih, hs, List.map_cons]
        rw [splitSeps_nonsep c t p ps hf hs,
          splitSeps_nonsep (lc c) (lowerStr t) (lowerStr p) (ps.map lowerStr) hf' hs']
        rfl

theorem titleCaseWord_lower (w w' : Str) (h : lowerStr w = lowerStr w') :
    titleCaseWord w = titleCaseWord w' := by
  cases w with
  | nil =>
    cases w' with
    | nil => rfl
    | cons a t => simp [lowerStr] at h
  | cons a t =>
    cases w' with
    | nil => simp [lowerStr] at h
    | cons b u =>
      simp only [lowerStr, List.map_cons, List.cons.injEq] at h
      obtain ⟨h1, h2⟩ := h
      simp only [titleCaseWord, Option.some.injEq, List.cons.injEq]
      exact ⟨uc_of_lc_eq a b h1, h2⟩

theorem mapM_titleCaseWord_lower :
    ∀ (xs ys : List Str), xs.map lowerStr = ys.map lowerStr →
      xs.mapM titleCaseWord = ys.mapM titleCaseWord := by
  intro xs
  induction xs with
  | nil =>
    intro ys h
    cases ys with
    | nil => rfl
    | cons b u => simp at h
  | cons a t ih =>
    intro ys h
    cases ys with
    | nil => simp at h
    | cons b u =>
      simp only [List.map_cons, List.cons.injEq] at h
      rw [List.mapM_cons, List.mapM_cons, titleCaseWord_lower a b h.1, ih u h.2]

/-- Labels equal up to letter case normalize to the same Title-Case label. -/
theorem titleCase_lower_inv (a b : Str) (h : lowerStr a = lowerStr b) :
    titleCase a = titleCase b := by
  unfold titleCase
  have h1 : (splitSeps a).map lowerStr = (splitSeps b).map lowerStr := by
    rw [← splitSeps_map_lc, ← splitSeps_map_lc, h]
  rw [mapM_titleCaseWord_lower _ _ h1]

/-! ## The Title-Case image of a label equals "Name" exactly for labels
lowercasing to "name" -/

theorem lc_of_uc_eq (a b : Nat) (h : uc a = uc b) : lc a = lc b := by
  unfold uc at h
  unfold lc
  split_ifs at * <;> omega

theorem mapM_titleCaseWord_length :
    ∀ (xs : List Str) (ys : List Str), xs.mapM titleCaseWord = some ys →
      ys.length = xs.length := by
  intro xs
  induction xs with
  | nil =>
    intro ys h
    rw [List.mapM_nil] at h
    injection h with h'
    rw [← h']
  | cons a t ih =>
    intro ys h
    rw [List.mapM_cons] at h
    cases hw : titleCaseWord a with
    | none => rw [hw] at h; simp at h
    | some w =>
      rw [hw] at h
      cases hm : t.mapM titleCaseWord with
      | none => rw [hm] at h; simp at h
      | some zs =>
        rw [hm] at h
        have h3 : (some (w :: zs) : Option (List Str)) = some ys := h
        have h2 : ys = w :: zs := by
          injection h3 with h4
          rw [h4]
        rw [h2, List.length_cons, ih zs hm]
        rfl

theorem mem_splitSeps_no_sep :
    ∀ (l : Str) (w : Str), w ∈ splitSeps l → ∀ c ∈ w, isSepC c = false := by
  intro l
  induction l with
  | nil =>
    intro w hw c hc
    have : w = [] := by simpa [splitSeps] using hw
    rw [this] at hc
    simp at hc
  | cons a t ih =>
    intro w hw c hc
    by_cases h : isSepC a = true
    · cases t with
      | nil =>
        rw [splitSeps_sep_nil a h] at hw
        rcases List.mem_cons.mp hw with h1 | h1
        · rw [h1] at hc; simp at hc
        · rw [List.mem_singleton] at h1
          rw [h1] at hc
          simp at hc
      | cons x t' =>
        by_cases h2 : isSepC x = true
        · rw [splitSeps_sep_sep a x t' h h2] at hw
          exact ih w hw c hc
        · rw [splitSeps_sep_nonsep a x t' h (by simpa using h2)] at hw
          rcases List.mem_cons.mp hw with h1 | h1
          · rw [h1] at hc; simp at hc
          · exact ih w h1 c hc
    · have hf : isSepC a = false := by simpa using h
      cases hs : splitSeps t with
      | nil => exact absurd hs (splitSeps_ne_nil t)
      | cons p ps =>
        rw [splitSeps_nonsep a t p ps hf hs] at hw
        rcases List.mem_cons.mp hw with h1 | h1
        · rw [h1] at hc
          rcases List.mem_cons.mp hc with h3 | h3
          · rw [h3]; exact hf
          · exact ih p (by rw [hs]; simp) c h3
        · exact ih w (by rw [hs]; simp [h1]) c hc

theorem splitSeps_sepHead_len :
    ∀ (t : Str) (c : Nat), isSepC c = true → 2 ≤ (splitSeps (c :: t)).length := by
  intro t
  induction t with
  | nil =>
    intro c h
    rw [splitSeps_sep_nil c h]
    simp
  | cons x t' ih =>
    intro c h
    by_cases h2 : isSepC x = true
    · rw [splitSeps_sep_sep c x t' h h2]
      exact ih x h2
    · rw [splitSeps_sep_nonsep c x t' h (by simpa using h2)]
      have := splitSeps_ne_nil (x :: t')
      rw [List.length_cons]
      cases hs : splitSeps (x :: t') with
      | nil => exact absurd hs this
      | cons p ps => simp

theorem splitSeps_singleton : ∀ (l w : Str), splitSeps l = [w] → l = w := by
  intro l
  induction l with
  | nil =>
    intro w h
    have h2 : ([[]] : List Str) = [w] := h
    simpa using h2
  | cons c t ih =>
    intro w h
    by_cases hc : isSepC c = true
    · exfalso
      have := splitSeps_sepHead_len t c hc
      rw [h] at this
      simp at this
    · have hcf : isSepC c = false := by simpa using hc
      cases hs : splitSeps t with
      | nil => exact absurd hs (splitSeps_ne_nil t)
      | cons p ps =>
        rw [splitSeps_nonsep c t p ps hcf hs] at h
        injection h with h1 h2
        have hps : ps = [] := h2
        rw [hps] at hs
        rw [← h1, ih p hs]

theorem splitSeps_all_nonsep : ∀ (l : Str), (∀ c ∈ l, isSepC c = false) →
    splitSeps l = [l] := by
  intro l
  induction l with
  | nil => intro _; rfl
  | cons c t ih =>
    intro h
    have hc : isSepC c = false := h c (by simp)
    have ht : splitSeps t = [t] := ih (fun x hx => h x (by simp [hx]))
    exact splitSeps_nonsep c t t [] hc ht

theorem titleCase_nil : titleCase ([] : Str) = none := by decide

theorem intercalate_singleton (x : Str) : List.intercalate [32] [x] = x := by
  simp [List.intercalate]

theorem mem_intercalate_sep (x y : Str) (t : List Str) :
    32 ∈ List.intercalate [32] (x :: y :: t) := by
  have h : List.intercalate [32] (x :: y :: t) =
      x ++ [32] ++ List.intercalate [32] (y :: t) := by
    simp [List.intercalate]
  rw [h]
  simp

theorem titleCase_eq_name_iff (k : Str) :
    titleCase k = some (strToL "Name") ↔ lowerStr k = strToL "name" := by
  constructor
  · intro h
    unfold titleCase at h
    cases hm : (splitSeps k).mapM titleCaseWord with
    | none => rw [hm] at h; simp at h
    | some outs =>
      rw [hm] at h
      simp only [Option.map_some'] at h
      have hout : List.intercalate [32] outs = strToL "Name" := by injection h
      have hlen := mapM_titleCaseWord_length _ _ hm
      cases outs with
      | nil => exact absurd hout (by decide)
      | cons o1 rest =>
        cases rest with
        | cons o2 rest' =>
          exfalso
          have h32 := mem_intercalate_sep o1 o2 rest'
          rw [hout] at h32
          revert h32
          decide
        | nil =>
          rw [intercalate_singleton] at hout
          have hsl : (splitSeps k).length = 1 := by
            rw [← hlen]
            rfl
          cases hsk : splitSeps k with
          | nil => exact absurd hsk (splitSeps_ne_nil k)
          | cons w ws =>
            rw [hsk] at hsl
            have hws : ws = [] := by
              rw [List.length_cons] at hsl
              cases ws with
              | nil => rfl
              | cons u us => simp at hsl
            rw [hws] at hsk
            have hkw := splitSeps_singleton k w hsk
            rw [hsk] at hm
            rw [List.mapM_cons, List.mapM_nil] at hm
            cases hw : titleCaseWord w with
            | none => rw [hw] at hm; simp at hm
            | some o =>
              rw [hw] at hm
              have ho : o = o1 := by
                simp only [Option.pure_def, Option.bind_some] at hm
                have : some [o] = some [o1] := by
                  rw [← hm]
                  rfl
                injection this with h2
                injection h2
              cases w with
              | nil => simp [titleCaseWord] at hw
              | cons a t =>
                have ho2 : uc a :: t.map lc = o := by
                  simp only [titleCaseWord, Option.some.injEq] at hw
                  exact hw
                rw [ho, hout] at ho2
                have hname : strToL "Name" = 78 :: strToL "ame" := by decide
                rw [hname] at ho2
                injection ho2 with hA hT
                have hlca : lc a = 110 := by
                  have h78 : uc a = uc 110 := by
                    rw [hA]
                    decide
                  exact (lc_of_uc_eq a 110 h78).trans (by decide)
                have hlow : lowerStr (a :: t) = lc a :: t.map lc := rfl
                rw [hkw, hlow, hlca, hT]
                decide
  · intro h
    have hk4 : ∃ a b c d, k = [a, b, c, d] := by
      have hlen : k.length = 4 := by
        have : (lowerStr k).length = k.length := by
          unfold lowerStr
          rw [List.length_map]
        rw [h] at this
        have h4 : (strToL "name").length = 4 := by decide
        rw [h4] at this
        exact this.symm
      match k, hlen with
      | [a, b, c, d], _ => exact ⟨a, b, c, d, rfl⟩
    obtain ⟨a, b, c, d, hk⟩ := hk4
    subst hk
    have hlow : lowerStr [a, b, c, d] = [lc a, lc b, lc c, lc d] := rfl
    rw [hlow] at h
    have hname : strToL "name" = [110, 97, 109, 101] := by decide
    rw [hname] at h
    have ha : lc a = 110 := by injection h
    have h2 := h
    injection h2 with h2a h2rest
    injection h2rest with hb hrest
    injection hrest with hc hrest2
    injection hrest2 with hd
    have hnonsep : ∀ x ∈ ([a, b, c, d] : Str), isSepC x = false := by
      intro x hx
      have hlcsep : isSepC x = isSepC (lc x) := (isSepC_lc x).symm
      rw [hlcsep]
      rcases List.mem_cons.mp hx with h1 | h1
      · rw [h1, ha]; decide
      rcases List.mem_cons.mp h1 with h2 | h2
      · rw [h2, hb]; decide
      rcases List.mem_cons.mp h2 with h3 | h3
      · rw [h3, hc]; decide
      rcases List.mem_cons.mp h3 with h4 | h4
      · rw [h4, hd]; decide
      · simp at h4
    have hsplit := splitSeps_all_nonsep [a, b, c, d] hnonsep
    unfold titleCase
    rw [hsplit, List.mapM_cons, List.mapM_nil]
    have hword : titleCaseWord [a, b, c, d] = some (uc a :: [lc b, lc c, lc d]) := rfl
    rw [hword]
    have huc : uc a = 78 := by
      have h110 : uc a = uc 110 := uc_of_lc_eq a 110 (by rw [ha]; decide)
      rw [h110]
      decide
    rw [huc, hb, hc, hd]
    decide

/-! ## Keys of the parser's maps -/

theorem lastBy_some (ps : List (Str × Str)) (L : Str) (p : Str × Str)
    (h : lastBy ps L = some p) : p ∈ ps ∧ lowerStr p.1 = L := by
  unfold lastBy at h
  constructor
  · exact List.mem_reverse.mp (List.mem_of_find?_eq_some h)
  · have h2 := List.find?_some h
    exact beq_iff_eq.mp h2

theorem find?_eq_head?_filter {α : Type} (f : α → Bool) (l : List α) :
    l.find? f = (l.filter f).head? := by
  induction l with
  | nil => rfl
  | cons a t ih =>
    by_cases ha : f a = true
    · rw [List.find?_cons, ha, List.filter_cons, if_pos ha]
      rfl
    · have ha2 : f a = false := by simpa using ha
      rw [List.find?_cons, ha2, List.filter_cons, if_neg (by rw [ha2]; simp)]
      exact ih

theorem filter_getLast?_eq_lastBy (ps : List (Str × Str)) (L : Str) :
    (ps.filter (fun p => lowerStr p.1 == L)).getLast? = lastBy ps L := by
  unfold lastBy
  rw [← List.head?_reverse, ← List.filter_reverse, ← find?_eq_head?_filter]

theorem hasKey_fm_iff (ps : List (Str × Str)) (L : Str) :
    hasKey (buildMaps ps).1 L = ps.any (fun p => lowerStr p.1 == L) := by
  rw [hasKey_iff_isSome, buildMaps_fm_lookup]
  cases hl : lastBy ps L with
  | some p =>
    simp only [Option.map_some', Option.isSome_some]
    obtain ⟨hmem, hlow⟩ := lastBy_some ps L p hl
    symm
    rw [List.any_eq_true]
    refine ⟨p, hmem, ?_⟩
    rw [hlow]
    simp
  | none =>
    simp only [Option.map_none', Option.isSome_none]
    unfold lastBy at hl
    rw [List.find?_eq_none] at hl
    cases ha : ps.any (fun p => lowerStr p.1 == L) with
    | false => rfl
    | true =>
      rw [List.any_eq_true] at ha
      obtain ⟨p, hp, hb⟩ := ha
      exact absurd hb (hl p (List.mem_reverse.mpr hp))

theorem mapSet_keys_update (m : List (Str × Str)) (k v : Str) (h : hasKey m k = true) :
    (mapSet m k v).map (·.1) = m.map (·.1) := by
  unfold mapSet
  rw [if_pos h, List.map_map]
  apply List.map_congr_left
  intro p _
  simp only [Function.comp_apply]
  by_cases hb : (p.1 == k) = true
  · rw [if_pos hb]
    exact (beq_iff_eq.mp hb).symm
  · rw [if_neg hb]

theorem mapSet_nodup_keys (m : List (Str × Str)) (k v : Str)
    (h : ((m.map (·.1)).Nodup)) : (((mapSet m k v).map (·.1)).Nodup) := by
  by_cases hk : hasKey m k = true
  · rw [mapSet_keys_update m k v hk]
    exact h
  · unfold mapSet
    rw [if_neg hk, List.map_append]
    rw [List.nodup_append]
    refine ⟨h, by simp, ?_⟩
    intro a ha hb
    have hb2 : a = k := by simpa using hb
    subst hb2
    apply hk
    unfold hasKey
    rw [List.any_eq_true]
    rw [List.mem_map] at ha
    obtain ⟨p, hp, hpa⟩ := ha
    exact ⟨p, hp, by rw [hpa]; simp⟩

theorem buildMaps_nodup_vm (ps : List (Str × Str)) :
    ((((buildMaps ps).2).map (·.1)).Nodup) := by
  unfold buildMaps
  suffices H : ∀ (l : List (Str × Str)) (m : List (Str × Str) × List (Str × Str)),
      ((m.2.map (·.1)).Nodup) →
      (((l.foldl (fun m p => (mapSet m.1 (lowerStr p.1) p.1, mapSet m.2 (lowerStr p.1) p.2))
        m).2.map (·.1)).Nodup) by
    exact H ps ([], []) (by simp)
  intro l
  induction l with
  | nil => intro m hm; exact hm
  | cons p t ih =>
    intro m hm
    rw [List.foldl_cons]
    exact ih _ (mapSet_nodup_keys _ _ _ hm)

theorem eq_of_nodup_keys :
    ∀ (m : List (Str × Str)), ((m.map (·.1)).Nodup) →
      ∀ y ∈ m, ∀ z ∈ m, y.1 = z.1 → y = z := by
  intro m
  induction m with
  | nil => intro _ y hy; simp at hy
  | cons p t ih =>
    intro hnd y hy z hz hyz
    rw [List.map_cons, List.nodup_cons] at hnd
    obtain ⟨hp, hnd2⟩ := hnd
    rcases List.mem_cons.mp hy with hy1 | hy1 <;> rcases List.mem_cons.mp hz with hz1 | hz1
    · rw [hy1, hz1]
    · exfalso
      apply hp
      rw [List.mem_map]
      refine ⟨z, hz1, ?_⟩
      rw [← hyz, hy1]
    · exfalso
      apply hp
      rw [List.mem_map]
      refine ⟨y, hy1, ?_⟩
      rw [hyz, hz1]
    · exact ih hnd2 y hy1 z hz1 hyz

theorem find?_of_unique {α : Type} (pred : α → Bool) :
    ∀ (l : List α) (x : α), x ∈ l → pred x = true →
      (∀ y ∈ l, pred y = true → y = x) → l.find? pred = some x := by
  intro l
  induction l with
  | nil => intro x hx; simp at hx
  | cons a t ih =>
    intro x hx hpx huniq
    by_cases ha : pred a = true
    · rw [List.find?_cons, ha]
      have : a = x := huniq a (by simp) ha
      rw [this]
    · have ha2 : pred a = false := by simpa using ha
      rw [List.find?_cons, ha2]
      have hxt : x ∈ t := by
        rcases List.mem_cons.mp hx with h1 | h1
        · rw [h1] at hpx
          rw [hpx] at ha2
          exact absurd ha2 (by simp)
        · exact h1
      exact ih x hxt hpx (fun y hy hpy => huniq y (by simp [hy]) hpy)

/-! ## Locating a label's entry in a parsed record -/

theorem parse_ok_elim (raw : Str) (rec : Record) (h : parseObjectText raw = .ok rec) :
    ∃ nameLine, findNameLine raw = some nameLine ∧
      (requiredFields.filter
        (fun f => !hasKey (buildMaps (bulletPairs raw)).1 (lowerStr f))).isEmpty = true ∧
      buildObj nameLine (buildMaps (bulletPairs raw)).1
        (buildMaps (bulletPairs raw)).2 = some rec := by
  unfold parseObjectText at h
  cases hn : findNameLine raw with
  | none => rw [hn] at h; exact absurd h (by simp)
  | some nameLine =>
    rw [hn] at h
    simp only at h
    split at h
    · rename_i hm
      cases hb : buildObj nameLine (buildMaps (bulletPairs raw)).1
          (buildMaps (bulletPairs raw)).2 with
      | none => rw [hb] at h; exact absurd h (by simp)
      | some rec' =>
        rw [hb] at h
        injection h with h'
        subst h'
        exact ⟨nameLine, rfl, hm, hb⟩
    · exact absurd h (by simp)

theorem buildObj_some_titleCase (fm : List (Str × Str)) :
    ∀ (vm : List (Str × Str)) (obj₀ rec : Record),
      vm.foldlM (fun obj p => (titleCase ((alookup fm p.1).getD [])).map
        (fun lab => mapSet obj lab p.2)) obj₀ = some rec →
      ∀ p ∈ vm, (titleCase ((alookup fm p.1).getD [])).isSome = true := by
  intro vm
  induction vm with
  | nil =>
    intro obj₀ rec h p hp
    simp at hp
  | cons q vm ih =>
    intro obj₀ rec h p hp
    rw [List.foldlM_cons] at h
    cases ht : titleCase ((alookup fm q.1).getD []) with
    | none =>
      rw [ht] at h
      simp at h
    | some lab =>
      rw [ht] at h
      have h' : vm.foldlM (fun obj p => (titleCase ((alookup fm p.1).getD [])).map
          (fun lab => mapSet obj lab p.2)) (mapSet obj₀ lab q.2) = some rec := h
      rcases List.mem_cons.mp hp with h1 | h1
      · rw [h1, ht]
        rfl
      · exact ih _ _ h' p h1

theorem fRec_iff (ps : List (Str × Str)) (L lab : Str) (e : Str × Str)
    (hL : lastBy ps L = some e) (hlabel : titleCase e.1 = some lab)
    (hcol : ∀ p ∈ ps, lowerStr p.1 ≠ L → titleCase p.1 ≠ some lab) (q : Str × Str) :
    (titleCase ((alookup (buildMaps ps).1 q.1).getD []) == some lab) = true ↔
      q.1 = L := by
  constructor
  · intro h
    have hbeq : titleCase ((alookup (buildMaps ps).1 q.1).getD []) = some lab :=
      beq_iff_eq.mp h
    cases hf : alookup (buildMaps ps).1 q.1 with
    | none =>
      rw [hf] at hbeq
      simp only [Option.getD_none] at hbeq
      rw [titleCase_nil] at hbeq
      exact absurd hbeq (by simp)
    | some r =>
      rw [hf] at hbeq
      simp only [Option.getD_some] at hbeq
      rw [buildMaps_fm_lookup] at hf
      cases hl : lastBy ps q.1 with
      | none =>
        rw [hl] at hf
        simp at hf
      | some p' =>
        rw [hl] at hf
        simp only [Option.map_some', Option.some.injEq] at hf
        obtain ⟨hmem, hlow⟩ := lastBy_some ps q.1 p' hl
        by_contra hne
        apply hcol p' hmem (by rw [hlow]; exact hne)
        rw [hf]
        exact hbeq
  · intro h
    rw [h, buildMaps_fm_lookup, hL]
    simp only [Option.map_some', Option.getD_some]
    rw [hlabel]
    simp

theorem parse_ok_lookup (raw : Str) (rec : Record) (L lab : Str) (e : Str × Str)
    (hparse : parseObjectText raw = .ok rec)
    (hL : lastBy (bulletPairs raw) L = some e)
    (hlabel : titleCase e.1 = some lab)
    (hcol : ∀ p ∈ bulletPairs raw, lowerStr p.1 ≠ L → titleCase p.1 ≠ some lab) :
    alookup rec lab = some e.2 := by
  obtain ⟨nameLine, hn, hmiss, hb⟩ := parse_ok_elim raw rec hparse
  have hvm : alookup (buildMaps (bulletPairs raw)).2 L = some e.2 := by
    rw [buildMaps_vm_lookup, hL]
    rfl
  unfold alookup at hvm
  cases hfq : (buildMaps (bulletPairs raw)).2.find? (fun p => p.1 == L) with
  | none =>
    rw [hfq] at hvm
    exact absurd hvm (by simp)
  | some q₀ =>
    rw [hfq] at hvm
    have hq2 : q₀.2 = e.2 := by injection hvm
    have hqb := List.find?_some hfq
    have hq1 : q₀.1 = L := beq_iff_eq.mp hqb
    have hqmem : q₀ ∈ (buildMaps (bulletPairs raw)).2 := List.mem_of_find?_eq_some hfq
    have hchar := fRec_iff (bulletPairs raw) L lab e hL hlabel hcol
    have hnodup := buildMaps_nodup_vm (bulletPairs raw)
    have hfind : (buildMaps (bulletPairs raw)).2.reverse.find?
        (fun p => titleCase ((alookup (buildMaps (bulletPairs raw)).1 p.1).getD [])
          == some lab) = some q₀ := by
      apply find?_of_unique _ _ q₀ (List.mem_reverse.mpr hqmem) ((hchar q₀).mpr hq1)
      intro y hy hpy
      have hy1 : y.1 = L := (hchar y).mp hpy
      exact eq_of_nodup_keys _ hnodup y (List.mem_reverse.mp hy) q₀ hqmem
        (hy1.trans hq1.symm)
    unfold buildObj at hb
    have hlook := buildObj_lookup (buildMaps (bulletPairs raw)).1
      (buildMaps (bulletPairs raw)).2 _ rec hb lab
    rw [hfind] at hlook
    rw [hlook]
    simp only [Option.map_some']
    rw [hq2]
    rfl

theorem parse_ok_titleCase_some (raw : Str) (rec : Record) (L : Str) (e : Str × Str)
    (hparse : parseObjectText raw = .ok rec)
    (hL : lastBy (bulletPairs raw) L = some e) :
    (titleCase e.1).isSome = true := by
  obtain ⟨nameLine, hn, hmiss, hb⟩ := parse_ok_elim raw rec hparse
  have hvm : alookup (buildMaps (bulletPairs raw)).2 L = some e.2 := by
    rw [buildMaps_vm_lookup, hL]
    rfl
  unfold alookup at hvm
  cases hfq : (buildMaps (bulletPairs raw)).2.find? (fun p => p.1 == L) with
  | none =>
    rw [hfq] at hvm
    exact absurd hvm (by simp)
  | some q₀ =>
    have hqb := List.find?_some hfq
    have hq1 : q₀.1 = L := beq_iff_eq.mp hqb
    have hqmem : q₀ ∈ (buildMaps (bulletPairs raw)).2 := List.mem_of_find?_eq_some hfq
    unfold buildObj at hb
    have hsome := buildObj_some_titleCase (buildMaps (bulletPairs raw)).1
      (buildMaps (bulletPairs raw)).2 _ rec hb q₀ hqmem
    rw [hq1] at hsome
    rw [buildMaps_fm_lookup, hL] at hsome
    simpa using hsome

theorem parse_ok_name_lookup (raw : Str) (rec : Record)
    (hparse : parseObjectText raw = .ok rec) :
    ∃ e, lastBy (bulletPairs raw) (strToL "name") = some e ∧
      alookup rec (strToL "Name") = some e.2 := by
  obtain ⟨nameLine, hn, hmiss, hb⟩ := parse_ok_elim raw rec hparse
  have hhk : hasKey (buildMaps (bulletPairs raw)).1 (strToL "name") = true := by
    rw [List.isEmpty_iff] at hmiss
    rw [List.filter_eq_nil_iff] at hmiss
    have h1 := hmiss (strToL "Name") (by simp [requiredFields])
    have hlow : lowerStr (strToL "Name") = strToL "name" := by decide
    simp only [hlow] at h1
    cases hX : hasKey (buildMaps (bulletPairs raw)).1 (strToL "name") with
    | true => rfl
    | false =>
      exfalso
      apply h1
      rw [hX]
      rfl
  have hsome : (alookup (buildMaps (bulletPairs raw)).1 (strToL "name")).isSome = true := by
    rw [← hasKey_iff_isSome]
    exact hhk
  rw [buildMaps_fm_lookup] at hsome
  cases hL : lastBy (bulletPairs raw) (strToL "name") with
  | none =>
    rw [hL] at hsome
    simp at hsome
  | some e =>
    refine ⟨e, rfl, ?_⟩
    obtain ⟨hmem, hlowe⟩ := lastBy_some _ _ _ hL
    have hlabel : titleCase e.1 = some (strToL "Name") :=
      (titleCase_eq_name_iff e.1).mpr hlowe
    apply parse_ok_lookup raw rec (strToL "name") (strToL "Name") e hparse hL hlabel
    intro p hp hne hcontra
    exact hne ((titleCase_eq_name_iff p.1).mp hcontra)

theorem findNameLine_not_bullet (raw : Str) (nl : Str)
    (h : findNameLine raw = some nl) : matchBullet nl = none := by
  have hpred := List.find?_some h
  have hne : nl.head? ≠ some 42 := by simpa using hpred
  cases nl with
  | nil => rfl
  | cons c t =>
    have hc : c ≠ 42 := by
      intro he
      apply hne
      rw [he]
      rfl
    rw [matchBullet.eq_def]
    split
    · rename_i rest heq
      injection heq with h1 h2
      exact absurd h1 hc
    · rfl

/-! ## The missing-required-fields branch -/

theorem parse_missing_result (raw : Str) (hn : findNameLine raw ≠ none) :
    ((hasFld raw (strToL "name") = false ∧ hasFld raw (strToL "id") = false) →
       parseObjectText raw = .errMissing [strToL "Name", strToL "Id"]) ∧
    ((hasFld raw (strToL "name") = false ∧ hasFld raw (strToL "id") = true) →
       parseObjectText raw = .errMissing [strToL "Name"]) ∧
    ((hasFld raw (strToL "name") = true ∧ hasFld raw (strToL "id") = false) →
       parseObjectText raw = .errMissing [strToL "Id"]) := by
  cases hfn : findNameLine raw with
  | none => exact absurd hfn hn
  | some nameLine =>
    have e1 : lowerStr (strToL "Name") = strToL "name" := by decide
    have e2 : lowerStr (strToL "Id") = strToL "id" := by decide
    have hkn := hasKey_fm_iff (bulletPairs raw) (strToL "name")
    have hki := hasKey_fm_iff (bulletPairs raw) (strToL "id")
    refine ⟨?_, ?_, ?_⟩ <;> rintro ⟨hname, hid⟩
    · unfold parseObjectText
      rw [hfn]
      simp only [requiredFields, List.filter, e1, e2, hkn, hki]
      rw [show hasFld raw (strToL "name") = (bulletPairs raw).any
            (fun p => lowerStr p.1 == strToL "name") from rfl] at hname
      rw [show hasFld raw (strToL "id") = (bulletPairs raw).any
            (fun p => lowerStr p.1 == strToL "id") from rfl] at hid
      rw [hname, hid]
      rfl
    · unfold parseObjectText
      rw [hfn]
      simp only [requiredFields, List.filter, e1, e2, hkn, hki]
      rw [show hasFld raw (strToL "name") = (bulletPairs raw).any
            (fun p => lowerStr p.1 == strToL "name") from rfl] at hname
      rw [show hasFld raw (strToL "id") = (bulletPairs raw).any
            (fun p => lowerStr p.1 == strToL "id") from rfl] at hid
      rw [hname, hid]
      rfl
    · unfold parseObjectText
      rw [hfn]
      simp only [requiredFields, List.filter, e1, e2, hkn, hki]
      rw [show hasFld raw (strToL "name") = (bulletPairs raw).any
            (fun p => lowerStr p.1 == strToL "name") from rfl] at hname
      rw [show hasFld raw (strToL "id") = (bulletPairs raw).any
            (fun p => lowerStr p.1 == strToL "id") from rfl] at hid
      rw [hname, hid]
      rfl

/-! ## Substring and table-row lemmas -/

theorem strPre_self_append (ci : Bool) : ∀ (p b : Str), strPre ci p (p ++ b) = true := by
  intro p
  induction p with
  | nil => intro b; rfl
  | cons a t ih =>
    intro b
    show (chEq ci a a && strPre ci t (t ++ b)) = true
    rw [ih b]
    unfold chEq
    cases ci <;> simp

theorem hasSubstr_self_append (p b : Str) : hasSubstr p (p ++ b) = true := by
  unfold hasSubstr
  cases hp : p with
  | nil =>
    cases b with
    | nil => rfl
    | cons c t =>
      show (strPre false [] (c :: t) || hasOccB false [] t) = true
      rfl
  | cons a t =>
    show (strPre false (a :: t) ((a :: t) ++ b) || _) = true
    rw [strPre_self_append]
    rfl

theorem hasOccB_append_right (ci : Bool) (p : Str) :
    ∀ (a z : Str), hasOccB ci p z = true → hasOccB ci p (a ++ z) = true := by
  intro a
  induction a with
  | nil => intro z h; exact h
  | cons c t ih =>
    intro z h
    show (strPre ci p (c :: (t ++ z)) || hasOccB ci p (t ++ z)) = true
    rw [ih z h]
    simp

theorem tableRows_length (dp : DateParse) (dn : DateNorm) (fields : List Str) :
    ∀ (recs : List Record) (i : Nat), (tableRows dp dn fields i recs).length = recs.length := by
  intro recs
  induction recs with
  | nil => intro i; rfl
  | cons r rs ih =>
    intro i
    show (rowHtml dp dn fields i r :: tableRows dp dn fields (i + 1) rs).length = _
    rw [List.length_cons, ih (i + 1)]
    rfl

theorem tableRows_get? (dp : DateParse) (dn : DateNorm) (fields : List Str) :
    ∀ (recs : List Record) (i j : Nat),
      (tableRows dp dn fields j recs).get? i =
        (recs.get? i).map (fun r => rowHtml dp dn fields (j + i) r) := by
  intro recs
  induction recs with
  | nil => intro i j; cases i <;> rfl
  | cons r rs ih =>
    intro i j
    cases i with
    | zero =>
      show (rowHtml dp dn fields j r :: tableRows dp dn fields (j + 1) rs).get? 0 = _
      simp
    | succ i' =>
      show (rowHtml dp dn fields j r :: tableRows dp dn fields (j + 1) rs).get? (i' + 1) = _
      rw [List.get?_cons_succ, ih i' (j + 1)]
      have : j + 1 + i' = j + (i' + 1) := by omega
      rw [this]
      rfl

theorem rowHtml_has_dataRecord (dp : DateParse) (dn : DateNorm) (fields : List Str)
    (i : Nat) (r : Record) :
    hasSubstr (dataRecordAttr r) (rowHtml dp dn fields i r) = true := by
  unfold rowHtml
  simp only [List.append_assoc]
  apply hasOccB_append_right
  apply hasOccB_append_right
  apply hasOccB_append_right
  exact hasSubstr_self_append _ _

/-! ## The claims -/

/-- C1, counterexample: the claim that every field value has `<`, `>`, `&`,
`"` escaped in the visible markup is false — the renderer's `esc` maps each
of those characters to itself, so the raw `<` (code point 60) survives into
the rendered text unchanged. -/
theorem C1_counterexample :
    esc (strToL "a<b&c\"") = strToL "a<b&c\"" ∧ 60 ∈ esc (strToL "a<b&c\"") := by
  constructor
  · decide
  · decide

/-- C1, amended: the escape helper is the identity, so special characters
reach the visible markup verbatim; the second half of the claim holds: the
sanitizer applied to the serialized original record leaves no case-variant
of `</script>` and no `<!--` in its output, so the embedded original-data
encoding cannot be terminated early. -/
theorem C1_amended (s : Str) :
    esc s = s ∧
      hasOccB true (strToL "</script>") (sanitize s) = false ∧
      hasSubstr (strToL "<!--") (sanitize s) = false :=
  ⟨esc_id s, (sanitize_safe s).1, (sanitize_safe s).2⟩

/-- C2: the diff engine outputs exactly the literal "No changes detected."
precisely when no key of the original has a normalized changed value;
otherwise it outputs exactly one sentence "Update this field: ..." (one
change) or "Update these fields: ..." (two or more), the changes joined by
"; " with a trailing period; and the Amount example produces exactly
the quoted sentence. -/
theorem C2_diff_format (original : Record) (current : Str → Option Str) :
    ((∀ k, ¬ diffKey original current k) ↔
      buildPrompt original current = strToL "No changes detected.") ∧
    (∀ c cs, changedList original current = c :: cs →
      buildPrompt original current =
        strToL "Update " ++
          (if cs.isEmpty then strToL "this field" else strToL "these fields") ++
          strToL ": " ++ List.intercalate (strToL "; ") (c :: cs) ++ strToL ".") ∧
    buildPrompt [(strToL "Amount", strToL "$100")]
      (fun k => if k = strToL "Amount" then some (strToL "$200") else none) =
      strToL "Update this field: Amount from \"$100\" to \"$200\"." := by
  refine ⟨⟨?_, ?_⟩, ?_, ?_⟩
  · intro h
    have hnil : changedList original current = [] := (changedList_nil_iff _ _).mpr h
    unfold buildPrompt
    rw [hnil]
    rfl
  · intro h
    rw [← changedList_nil_iff]
    by_contra hne
    cases hc : changedList original current with
    | nil => exact hne hc
    | cons c cs => exact buildPrompt_ne_noChanges original current c cs hc h
  · intro c cs h
    exact buildPrompt_pos original current c cs h
  · decide

/-- C3, counterexample: the round-trip claim fails — the record parsed from
a text with "Probability: 40" (no trailing percent sign) renders and
submits back as "40%", so the diff engine reports a change instead of
"No changes detected.". -/
theorem C3_counterexample :
    parseObjectText (strToL "Opp\n* Name: Opp\n* Id: 1\n* Probability: 40") =
      .ok [(strToL "Name", strToL "Opp"), (strToL "Id", strToL "1"),
        (strToL "Probability", strToL "40")] ∧
    roundTripPrompt dpNone dnNone
      [(strToL "Name", strToL "Opp"), (strToL "Id", strToL "1"),
        (strToL "Probability", strToL "40")] =
      strToL "Update this field: Probability from \"40\" to \"40%\"." ∧
    strToL "Update this field: Probability from \"40\" to \"40%\"." ≠
      strToL "No changes detected." := by
  refine ⟨by decide, by decide, by decide⟩

/-- C3, amended: rendering a parsed record and submitting its prefilled
values unmodified yields "No changes detected." provided every
probability-classified field's value is its trimmed edited core followed by
"%", and every date-classified value that passes the date check is already
in strict YYYY-MM-DD form (so no oracle normalization rewrites it). -/
theorem C3_amended (dp : DateParse) (dn : DateNorm) (raw : Str) (rec : Record)
    (hparse : parseObjectText raw = .ok rec)
    (hprob : ∀ p ∈ rec, isProbKey p.1 = true → endsPctWs p.2 = true ∧
      jsTrim (stripPctWs p.2) ≠ [] ∧ jsTrim (stripPctWs p.2) ++ [37] = p.2)
    (hdate : ∀ p ∈ rec, isDateKey p.1 = true → forceTextKey p.1 = false →
      isIsoDate dp p.2 = true → strictYMD p.2 = true) :
    roundTripPrompt dp dn rec = strToL "No changes detected." :=
  roundTrip_noChanges dp dn raw rec hparse hprob hdate

/-- C3, witness: a concrete record with a percent-suffixed probability, a
strict ISO close date, an amount and an id round-trips to no changes. -/
theorem C3_witness :
    roundTripPrompt dpNone dnNone
      [(strToL "Name", strToL "Acme Deal"), (strToL "Id", strToL "006"),
       (strToL "Probability", strToL "40%"),
       (strToL "Close Date", strToL "2024-01-15"),
       (strToL "Amount", strToL "$100")] = strToL "No changes detected." :=
  C3_amended dpNone dnNone
    (strToL "Opportunity\n* Name: Acme Deal\n* Id: 006\n* Probability: 40%\n* Close Date: 2024-01-15\n* Amount: $100")
    [(strToL "Name", strToL "Acme Deal"), (strToL "Id", strToL "006"),
     (strToL "Probability", strToL "40%"),
     (strToL "Close Date", strToL "2024-01-15"),
     (strToL "Amount", strToL "$100")]
    (by decide) (by decide) (by decide)

/-- C4: when the text has a non-bullet name line but its bullet fields lack
"Name" and/or "Id" case-insensitively, parsing fails with the
missing-required-fields error naming exactly the missing ones, in all three
cases, and the message spells exactly those names. -/
theorem C4_missing_fields (raw : Str) (hn : findNameLine raw ≠ none) :
    ((hasFld raw (strToL "name") = false ∧ hasFld raw (strToL "id") = false) →
       parseObjectText raw = .errMissing [strToL "Name", strToL "Id"]) ∧
    ((hasFld raw (strToL "name") = false ∧ hasFld raw (strToL "id") = true) →
       parseObjectText raw = .errMissing [strToL "Name"]) ∧
    ((hasFld raw (strToL "name") = true ∧ hasFld raw (strToL "id") = false) →
       parseObjectText raw = .errMissing [strToL "Id"]) ∧
    missingMsg [strToL "Name", strToL "Id"] =
      strToL "Missing required fields: Name, Id" ∧
    missingMsg [strToL "Name"] = strToL "Missing required fields: Name" ∧
    missingMsg [strToL "Id"] = strToL "Missing required fields: Id" := by
  obtain ⟨h1, h2, h3⟩ := parse_missing_result raw hn
  exact ⟨h1, h2, h3, by decide, by decide, by decide⟩

/-- C4, witness: a text with only an Id bullet is rejected naming Name. -/
theorem C4_witness :
    parseObjectText (strToL "Acme\n* Id: 1") = .errMissing [strToL "Name"] :=
  ((C4_missing_fields (strToL "Acme\n* Id: 1") (by decide)).2.1)
    ⟨by decide, by decide⟩

/-- C10: on a text with valid Name and Id bullets plus a bullet whose
trimmed label begins with an underscore, the parser neither returns a
record nor raises a structured error: the Title-Case step hits an empty
first word and throws the untyped runtime error, modelled as `.crash`. -/
theorem C10_crash :
    parseObjectText (strToL "Acme\n* Name: Acme\n* Id: 1\n* _foo: bar") =
      .crash := by
  decide

/-- C5, counterexample: with duplicate labels "A B: 1" / "a b: 2" and a
separately keyed label "a_b: 3" that Title-Cases to the same display label,
the record maps the displayed label "A B" to "3", not to "2", the value of
the last line of the case-insensitive group. -/
theorem C5_counterexample :
    parseObjectText (strToL "X\n* Name: n\n* Id: 1\n* A B: 1\n* a b: 2\n* a_b: 3") =
      .ok [(strToL "Name", strToL "n"), (strToL "Id", strToL "1"),
        (strToL "A B", strToL "3")] ∧
    grp (strToL "X\n* Name: n\n* Id: 1\n* A B: 1\n* a b: 2\n* a_b: 3")
      (strToL "a b") = [(strToL "A B", strToL "1"), (strToL "a b", strToL "2")] ∧
    titleCase (strToL "A B") = some (strToL "A B") ∧
    titleCase (strToL "a_b") = some (strToL "A B") ∧
    alookup [(strToL "Name", strToL "n"), (strToL "Id", strToL "1"),
      (strToL "A B", strToL "3")] (strToL "A B") ≠ some (strToL "2") := by
  refine ⟨by decide, by decide, by decide, by decide, by decide⟩

/-- C5, amended: on a successful parse, for a case-insensitive duplicate
label group the record maps the Title-Case of the first occurrence's casing
(equal to the Title-Case of the last occurrence's casing) to the value of
the last line of the group, provided no bullet label with a different
case-insensitive key Title-Cases to the same display label. -/
theorem C5_amended (raw : Str) (rec : Record) (L : Str) (e0 : Str × Str)
    (es' : List (Str × Str))
    (hparse : parseObjectText raw = .ok rec)
    (hgrp : grp raw L = e0 :: es')
    (hdup : es' ≠ [])
    (hcol : ∀ p ∈ bulletPairs raw, lowerStr p.1 ≠ L →
      titleCase p.1 ≠ titleCase e0.1) :
    ∃ lab last, titleCase e0.1 = some lab ∧ (e0 :: es').getLast? = some last ∧
      titleCase last.1 = some lab ∧ alookup rec lab = some last.2 := by
  have h1 : ((e0 :: es').getLast?).isSome = true := by
    rw [List.getLast?_isSome]
    simp
  obtain ⟨last, hgl⟩ := Option.isSome_iff_exists.mp h1
  have hlastBy : lastBy (bulletPairs raw) L = some last := by
    rw [← filter_getLast?_eq_lastBy]
    have hgrp2 : (bulletPairs raw).filter (fun p => lowerStr p.1 == L) = e0 :: es' :=
      hgrp
    rw [hgrp2]
    exact hgl
  have he0mem : e0 ∈ grp raw L := by
    rw [hgrp]
    simp
  have he0 : lowerStr e0.1 = L := by
    unfold grp at he0mem
    rw [List.mem_filter] at he0mem
    exact beq_iff_eq.mp he0mem.2
  obtain ⟨hlmem, hllow⟩ := lastBy_some _ _ _ hlastBy
  have htc : titleCase e0.1 = titleCase last.1 :=
    titleCase_lower_inv _ _ (by rw [he0, hllow])
  have hsome := parse_ok_titleCase_some raw rec L last hparse hlastBy
  cases hl : titleCase last.1 with
  | none =>
    rw [hl] at hsome
    simp at hsome
  | some lab =>
    refine ⟨lab, last, by rw [htc, hl], hgl, hl, ?_⟩
    apply parse_ok_lookup raw rec L lab last hparse hlastBy hl
    intro p hp hne
    have h2 := hcol p hp hne
    rw [htc, hl] at h2
    exact h2

/-- C5, witness: the group of labels lowering to "amount" ("AMOUNT: 1" then
"amount: 2") resolves to display label "Amount" with value "2". -/
theorem C5_witness :
    ∃ lab last, titleCase (strToL "AMOUNT") = some lab ∧
      ([(strToL "AMOUNT", strToL "1"),
        (strToL "amount", strToL "2")] : List (Str × Str)).getLast? = some last ∧
      titleCase last.1 = some lab ∧
      alookup [(strToL "Name", strToL "n"), (strToL "Id", strToL "1"),
        (strToL "Amount", strToL "2")] lab = some last.2 :=
  C5_amended (strToL "X\n* Name: n\n* Id: 1\n* AMOUNT: 1\n* amount: 2")
    [(strToL "Name", strToL "n"), (strToL "Id", strToL "1"),
     (strToL "Amount", strToL "2")]
    (strToL "amount") (strToL "AMOUNT", strToL "1")
    [(strToL "amount", strToL "2")]
    (by decide) (by decide) (by decide) (by decide)

/-- C6, counterexample: the first non-bulleted line is "Acme Corp", yet the
parsed record's Name is "Widget" — the required Name bullet overwrites the
name line, so the claim that the record's Name is the first non-bulleted
line fails. -/
theorem C6_counterexample :
    findNameLine (strToL "Acme Corp\n* Name: Widget\n* Id: 1") =
      some (strToL "Acme Corp") ∧
    parseObjectText (strToL "Acme Corp\n* Name: Widget\n* Id: 1") =
      .ok [(strToL "Name", strToL "Widget"), (strToL "Id", strToL "1")] ∧
    alookup [(strToL "Name", strToL "Widget"), (strToL "Id", strToL "1")]
      (strToL "Name") = some (strToL "Widget") ∧
    strToL "Widget" ≠ strToL "Acme Corp" := by
  refine ⟨by decide, by decide, by decide, by decide⟩

/-- C6, amended: the first non-bulleted line only seeds the Name entry; on
every successful parse the record's Name is the value of the last Name
bullet (which the required-fields check guarantees to exist), and the name
line itself is never parsed as a label: value pair. -/
theorem C6_amended (raw : Str) (rec : Record)
    (hparse : parseObjectText raw = .ok rec) :
    (∃ e, lastBy (bulletPairs raw) (strToL "name") = some e ∧
      alookup rec (strToL "Name") = some e.2) ∧
    (∀ nl, findNameLine raw = some nl → matchBullet nl = none) :=
  ⟨parse_ok_name_lookup raw rec hparse,
    fun nl h => findNameLine_not_bullet raw nl h⟩

/-- C6, witness: at the counterexample input, the Name entry comes from the
Name bullet and the name line never matches the bullet pattern. -/
theorem C6_witness :
    (∃ e, lastBy (bulletPairs (strToL "Acme Corp\n* Name: Widget\n* Id: 1"))
        (strToL "name") = some e ∧
      alookup [(strToL "Name", strToL "Widget"), (strToL "Id", strToL "1")]
        (strToL "Name") = some e.2) ∧
    (∀ nl, findNameLine (strToL "Acme Corp\n* Name: Widget\n* Id: 1") = some nl →
      matchBullet nl = none) :=
  C6_amended (strToL "Acme Corp\n* Name: Widget\n* Id: 1")
    [(strToL "Name", strToL "Widget"), (strToL "Id", strToL "1")] (by decide)

/-- C7: under every `Date.parse` oracle, the date-validity check accepts
"2024-02-30" (strict shape with in-range year, month and day, no calendar
check) and rejects "40%", "$100", "1500" and "1,234" before any fallback
parse is consulted. -/
theorem C7_date_check (dp : DateParse) :
    isIsoDate dp (strToL "2024-02-30") = true ∧
    isIsoDate dp (strToL "40%") = false ∧
    isIsoDate dp (strToL "$100") = false ∧
    isIsoDate dp (strToL "1500") = false ∧
    isIsoDate dp (strToL "1,234") = false := by
  refine ⟨?_, ?_, ?_, ?_, ?_⟩ <;> simp +decide [isIsoDate]

/-- C8: labels classified identifier ("id"), percentage (containing
"probability") or currency-like (containing "amount" or "revenue") always
render a plain-text input whatever the value; and the rendered input type
is "date" exactly when the spec's ordered classification
(identifier > currency/percentage > date > plain) yields the date kind. -/
theorem C8_classification (dp : DateParse) (key value : Str) :
    ((isIdKey key = true ∨ isProbKey key = true ∨ isAmountKey key = true) →
      fieldType dp key value = strToL "text") ∧
    (fieldType dp key value = strToL "date" ↔
      specFieldKind dp key value = .date) := by
  have htext : strToL "text" ≠ strToL "date" := by decide
  constructor
  · intro h
    have hf : forceTextKey key = true := by
      unfold forceTextKey
      rcases h with h | h | h <;> rw [h] <;> simp
    unfold fieldType
    rw [hf]
    simp
  · unfold fieldType specFieldKind
    by_cases hI : isIdKey key = true
    · have hf : forceTextKey key = true := by
        unfold forceTextKey
        rw [hI]
        simp
      rw [hf, hI]
      simp only [Bool.not_true, Bool.false_and, Bool.false_eq_true, if_false, if_true]
      constructor
      · intro h
        exact absurd h htext
      · intro h
        exact absurd h (by simp)
    · have hI2 : isIdKey key = false := by simpa using hI
      rw [hI2]
      by_cases hP : isProbKey key = true
      · have hf : forceTextKey key = true := by
          unfold forceTextKey
          rw [hP]
          simp
        rw [hf, hP]
        simp only [Bool.not_true, Bool.false_and, Bool.false_eq_true, if_false, if_true]
        constructor
        · intro h
          exact absurd h htext
        · intro h
          exact absurd h (by simp)
      · have hP2 : isProbKey key = false := by simpa using hP
        rw [hP2]
        by_cases hA : isAmountKey key = true
        · have hf : forceTextKey key = true := by
            unfold forceTextKey
            rw [hA, hP2, hI2]
            simp
          rw [hf, hA]
          simp only [Bool.not_true, Bool.false_and, Bool.false_eq_true, if_false, if_true]
          constructor
          · intro h
            exact absurd h htext
          · intro h
            exact absurd h (by simp)
        · have hA2 : isAmountKey key = false := by simpa using hA
          have hf : forceTextKey key = false := by
            unfold forceTextKey
            rw [hA2, hP2, hI2]
            rfl
          rw [hf, hA2]
          simp only [Bool.not_false, Bool.true_and, Bool.false_eq_true, if_false]
          by_cases hD : (isDateKey key && isIsoDate dp value) = true
          · rw [hD]
            simp only [if_true]
          · have hD2 : (isDateKey key && isIsoDate dp value) = false := by simpa using hD
            rw [hD2]
            simp only [Bool.false_eq_true, if_false]
            constructor
            · intro h
              exact absurd h htext
            · intro h
              exact absurd h (by simp)

/-- C9: with zero records the table renderer returns the dedicated
empty-state page, which contains the literal "<p>No records found.</p>"
message; with records present it returns the populated page, whose row list
has exactly one row per record, the i-th row rendered from the i-th record
and carrying that record's serialized copy in its `data-record` attribute. -/
theorem C9_table (dp : DateParse) (dn : DateNorm) (t : Str) (recs : List Record) :
    recordsTableHtml dp dn [] t = recordsEmptyHtml t ∧
    hasSubstr (strToL "<p>No records found.</p>") (recordsTableHtml dp dn [] t) = true ∧
    (recs ≠ [] → recordsTableHtml dp dn recs t = recordsPageHtml dp dn recs t) ∧
    (tableRows dp dn (sortFields (unionKeys recs)) 0 recs).length = recs.length ∧
    (∀ i r, recs.get? i = some r →
      (tableRows dp dn (sortFields (unionKeys recs)) 0 recs).get? i =
        some (rowHtml dp dn (sortFields (unionKeys recs)) i r) ∧
      hasSubstr (dataRecordAttr r) (rowHtml dp dn (sortFields (unionKeys recs)) i r) = true) := by
  refine ⟨rfl, ?_, ?_, tableRows_length dp dn _ recs 0, ?_⟩
  · show hasSubstr _ (recordsEmptyHtml t) = true
    unfold recordsEmptyHtml hasSubstr
    simp only [List.append_assoc]
    apply hasOccB_append_right
    apply hasOccB_append_right
    apply hasOccB_append_right
    apply hasOccB_append_right
    decide
  · intro hne
    cases recs with
    | nil => exact absurd rfl hne
    | cons r rs => rfl
  · intro i r hr
    constructor
    · rw [tableRows_get? dp dn _ recs i 0, hr]
      simp
    · exact rowHtml_has_dataRecord dp dn _ i r
